import Mathlib

/-!
Verification development for the ccdbind/ccdpin repository (Go).

The Go code is shallowly embedded: Go maps become association lists,
the systemd world (per-unit AllowedCPUs values) becomes a function
from unit names to strings, fallible supervisor calls are driven by
failure oracles, and performed supervisor mutations are collected in
an explicit trace.  The `internal/topology` package is not part of the
provided sources; its CPU-list codec is modelled from the spec (see
`parseCPUList` below).  Timestamp fields of the persisted state
(pure `time.Now()` bookkeeping) are omitted from the embedding.
-/

/-- Association-list lookup, modelling Go map indexing `m[k]` (comma-ok form). -/
def mapLookup {α β : Type} [DecidableEq α] : List (α × β) → α → Option β
  | [], _ => none
  | (k, v) :: rest, a => if a = k then some v else mapLookup rest a

/-- Association-list insertion, modelling Go map assignment `m[k] = v`. -/
def mapInsert {α β : Type} [DecidableEq α] (m : List (α × β)) (k : α) (v : β) : List (α × β) :=
  (k, v) :: m.filter (fun p => p.1 ≠ k)

/-- Association-list removal, modelling Go `delete(m, k)`. -/
def mapErase {α β : Type} [DecidableEq α] (m : List (α × β)) (k : α) : List (α × β) :=
  m.filter (fun p => p.1 ≠ k)

/-- The systemd world: current `AllowedCPUs` value of every unit. -/
def World : Type := String → String

/-- Update the world after a successful `SetAllowedCPUs(unit, val)` call. -/
def worldSet (w : World) (unit val : String) : World :=
  fun u => if u = unit then val else w u

/-- ASCII whitespace test used by Go `strings.TrimSpace` / `strings.Fields`
on the inputs that occur here. -/
def isSpaceChar (c : Char) : Bool :=
  c = ' ' || c = '\t' || c = '\n' || c = '\r'

/-- Trim leading and trailing whitespace from a character list. -/
def trimChars (l : List Char) : List Char :=
  ((l.dropWhile isSpaceChar).reverse.dropWhile isSpaceChar).reverse

/-- Go `strings.TrimSpace` on strings. -/
def trimStr (s : String) : String :=
  String.mk (trimChars s.toList)

/-- Split a character list on a separator character (Go `strings.Split`). -/
def splitOnChar (sep : Char) : List Char → List (List Char)
  | [] => [[]]
  | c :: rest =>
    if c = sep then [] :: splitOnChar sep rest
    else
      match splitOnChar sep rest with
      | [] => [[c]]
      | t :: ts => (c :: t) :: ts

/-- Whitespace-separated fields of a character list (Go `strings.Fields`). -/
def fieldsChars (l : List Char) : List (List Char) :=
  (splitOnChar ' ' (l.map (fun c => if isSpaceChar c then ' ' else c))).filter
    (fun f => ¬f.isEmpty)

/-- Go `strings.Fields` on a string, each field returned as a string. -/
def fieldsOf (s : String) : List String :=
  (fieldsChars s.toList).map String.mk

/-- Test whether a character list starts with the given pattern
(Go `strings.HasPrefix`). -/
def startsWithChars : List Char → List Char → Bool
  | [], _ => true
  | _ :: _, [] => false
  | p :: ps, c :: cs => p = c && startsWithChars ps cs

/-- Numeric value of a decimal digit character, `none` for non-digits. -/
def digitVal (c : Char) : Option Nat :=
  if c.isDigit then some (c.toNat - 48) else none

/-- Accumulator loop for `digitsToNat`. -/
def digitsAux : List Char → Nat → Option Nat
  | [], acc => some acc
  | c :: rest, acc =>
    match digitVal c with
    | none => none
    | some d => digitsAux rest (acc * 10 + d)

/-- Parse a non-empty all-digit character list as a natural number
(Go `strconv.Atoi` / `strconv.ParseUint` on the non-negative inputs used here). -/
def digitsToNat : List Char → Option Nat
  | [] => none
  | l => digitsAux l 0

instance {ε α : Type} [DecidableEq ε] [DecidableEq α] : DecidableEq (Except ε α) := fun x y =>
  match x, y with
  | .ok a, .ok b =>
    if h : a = b then isTrue (by rw [h]) else isFalse (by intro hc; cases hc; exact h rfl)
  | .error a, .error b =>
    if h : a = b then isTrue (by rw [h]) else isFalse (by intro hc; cases hc; exact h rfl)
  | .ok _, .error _ => isFalse (by intro hc; cases hc)
  | .error _, .ok _ => isFalse (by intro hc; cases hc)

/-- Error raised by the CPU-list codec on malformed tokens or inverted ranges. -/
inductive CPUListErr : Type
  | invalidCPUList : CPUListErr
deriving DecidableEq, Repr

/-- Modelled from the spec: the `internal/topology` package is not among the
provided sources.  Spec section 4.2: `parse(s)` splits on commas, accepts `N`
or `lo-hi` (`lo ≤ hi`, both non-negative), tolerates whitespace around tokens,
and fails with `InvalidCPUList` on malformed tokens or inverted ranges.
This parses one comma-separated token into the inclusive range it denotes. -/
def parseCPUToken (tok : List Char) : Except CPUListErr (List Nat) :=
  let t := trimChars tok
  match splitOnChar '-' t with
  | [single] =>
    match digitsToNat single with
    | none => .error .invalidCPUList
    | some n => .ok [n]
  | [loP, hiP] =>
    match digitsToNat loP, digitsToNat hiP with
    | some lo, some hi =>
      if lo ≤ hi then .ok ((List.range (hi + 1 - lo)).map (fun i => lo + i))
      else .error .invalidCPUList
    | _, _ => .error .invalidCPUList
  | _ => .error .invalidCPUList

/-- Parse every token of a comma-separated CPU list. -/
def parseCPUTokens : List (List Char) → Except CPUListErr (List Nat)
  | [] => .ok []
  | tok :: rest =>
    match parseCPUToken tok, parseCPUTokens rest with
    | .ok ns, .ok more => .ok (ns ++ more)
    | .error e, _ => .error e
    | _, .error e => .error e

/-- Modelled from the spec (section 4.2): `parse(s) → ordered set<int>`.
Empty input yields the empty set rather than an error. -/
def parseCPUList (s : String) : Except CPUListErr (List Nat) :=
  let cs := s.toList
  if (trimChars cs).isEmpty then .ok []
  else parseCPUTokens (splitOnChar ',' cs)

/-- Insert into a sorted list, keeping ascending order. -/
def insertAsc (n : Nat) : List Nat → List Nat
  | [] => [n]
  | m :: rest => if n ≤ m then n :: m :: rest else m :: insertAsc n rest

/-- Sort a list of naturals ascending. -/
def sortAsc (l : List Nat) : List Nat := l.foldr insertAsc []

/-- Drop adjacent duplicates from a sorted list. -/
def dedupSorted : List Nat → List Nat
  | [] => []
  | [a] => [a]
  | a :: b :: rest =>
    if a = b then dedupSorted (b :: rest) else a :: dedupSorted (b :: rest)

/-- Render one canonical run: a singleton as `N`, a longer run as `lo-hi`. -/
def rangeToken (lo hi : Nat) : String :=
  if lo = hi then Nat.repr lo else Nat.repr lo ++ "-" ++ Nat.repr hi

/-- Walk a strictly ascending list emitting maximal consecutive runs.
`lo` is the start of the current run and `cur` its last element so far. -/
def emitRuns (lo cur : Nat) : List Nat → List String
  | [] => [rangeToken lo cur]
  | n :: rest =>
    if n = cur + 1 then emitRuns lo n rest
    else rangeToken lo cur :: emitRuns n n rest

/-- Join strings with commas. -/
def joinComma : List String → String
  | [] => ""
  | [s] => s
  | s :: rest => s ++ "," ++ joinComma rest

/-- Canonical serialization of a set of CPUs given as a list. -/
def emitCanonical (l : List Nat) : String :=
  match dedupSorted (sortAsc l) with
  | [] => ""
  | n :: rest => joinComma (emitRuns n n rest)

/-- Modelled from the spec (section 4.2): `canonicalize(s)` = `parse` then
re-emit in minimal ascending form; empty input yields the empty string. -/
def canonicalizeCPUList (s : String) : Except CPUListErr String :=
  (parseCPUList s).map emitCanonical

example : canonicalizeCPUList "10-11,0-3,2,8" = .ok "0-3,8,10-11" := by decide
example : canonicalizeCPUList "5-3" = .error .invalidCPUList := by decide
example : canonicalizeCPUList "" = .ok "" := by decide
example : canonicalizeCPUList " 0-3 , 8-11 " = .ok "0-3,8-11" := by decide
example : canonicalizeCPUList "x" = .error .invalidCPUList := by decide

/-!
Embedding of `internal/procscan/affinity.go`.

A process-table entry is modelled by its pid, the lines of its
`status` file, and the (lowercased basename of the) `exe` symlink
target as produced by `exeBasenameLowerAt` (empty string when the
link cannot be read or has no usable basename).
-/

/-- A per-pid snapshot of the process-table files the scanner reads. -/
structure ProcEntry : Type where
  pid : Nat
  statusLines : List String
  exe : String
deriving DecidableEq, Repr

/-- A scanned CPU constraint record (`procscan.CPUConstraint`); the
best-effort `StartTime` field is not used by the status reporter and is
omitted. -/
structure CPUConstraint : Type where
  pid : Nat
  exe : String
  allowedCPUs : String
deriving DecidableEq, Repr

/-- Source `allowedCPUsFromStatus`: return the second field of the first
`Cpus_allowed_list:` line; `none` when no such line exists or the first
such line has fewer than two fields. -/
def allowedCPUsFromStatus : List String → Option String
  | [] => none
  | line :: rest =>
    if startsWithChars "Cpus_allowed_list:".toList line.toList then
      match fieldsOf line with
      | _ :: v :: _ => some v
      | _ => none
    else allowedCPUsFromStatus rest

/-- Source `allowedCPUsAt`: read the `Cpus_allowed_list` value from the
status lines, canonicalize it, and keep the raw (trimmed) value when
canonicalization fails; error out when the value is absent. -/
def allowedCPUsAt (lines : List String) : Except String String :=
  match allowedCPUsFromStatus lines with
  | none => .error "Cpus_allowed_list not found"
  | some allowed =>
    match canonicalizeCPUList allowed with
    | .error _ => .ok (trimStr allowed)
    | .ok canonical => .ok canonical

/-- Source `isOwnedByUIDAt`: parse the first `Uid:` line; `none` models the
error cases (no `Uid:` line, short line, unparsable field). -/
def isOwnedByUID (lines : List String) (uid : Nat) : Option Bool :=
  match lines with
  | [] => none
  | line :: rest =>
    if startsWithChars "Uid:".toList line.toList then
      match fieldsOf line with
      | _ :: v :: _ =>
        match digitsToNat v.toList with
        | none => none
        | some parsed => some (parsed = uid)
      | _ => none
    else isOwnedByUID rest uid

/-- Source `scanUserCPUConstraintsAt`: keep user-owned entries with a usable
executable basename and a non-empty readable allowed-CPU list. -/
def scanUserCPUConstraints (uid : Nat) (entries : List ProcEntry) : List CPUConstraint :=
  entries.filterMap (fun e =>
    if e.pid = 0 then none
    else
      match isOwnedByUID e.statusLines uid with
      | none => none
      | some false => none
      | some true =>
        if e.exe = "" then none
        else
          match allowedCPUsAt e.statusLines with
          | .error _ => none
          | .ok allowed =>
            if (trimStr allowed).isEmpty then none
            else some ⟨e.pid, e.exe, allowed⟩)

example : allowedCPUsFromStatus ["Name:\tfoo", "Uid:\t1000\t1000\t1000\t1000",
  "Cpus_allowed_list:\t0-3,8-11"] = some "0-3,8-11" := by decide
example : allowedCPUsFromStatus ["Name:\tfoo", "Uid:\t1000\t1000\t1000\t1000"] = none := by
  decide
example : allowedCPUsAt ["Cpus_allowed_list:\t0-3,2"] = .ok "0-3" := by decide
example : allowedCPUsAt ["Cpus_allowed_list:\t5-3x"] = .ok "5-3x" := by decide

/-!
Embedding of the daemon reconciler (`cmd/ccdbind/main.go`).
-/

/-- Source `pidRecord`: the pid→unit binding value. -/
structure PidRecord : Type where
  unit : String
  startTime : Nat
deriving DecidableEq, Repr

/-- The persisted daemon state (`internal/state.File`); the two timestamp
fields are pure bookkeeping and are omitted.  `originalAllowedCPUs = none`
models a nil Go map. -/
structure StateFile : Type where
  pinApplied : Bool
  originalAllowedCPUs : Option (List (String × String))
  osCPUs : String
  gameCPUs : String
deriving DecidableEq, Repr

/-- One scanned game process (`procscan.GameProcess`), restricted to the
fields `handleTick` reads. -/
structure GameProcess : Type where
  pid : Nat
  startTime : Nat
deriving DecidableEq, Repr

/-- The daemon's in-memory runtime (`runtime` struct). -/
structure DaemonRuntime : Type where
  dryRun : Bool
  osCPUs : String
  gameCPUs : String
  pidToUnit : List (Nat × PidRecord)

/-- Failure oracle for the supervisor calls a tick makes.  In dry-run mode
every mutating call is short-circuited to success (modelled from the spec:
the `internal/systemdctl` package is not among the provided sources, and the
spec says dry-run short-circuits all mutating calls and returns success),
so these oracles only fire when `dryRun = false`.  `scopeCreated` models the
`created` result of `EnsureTransientScope`. -/
structure TickEnv : Type where
  getFails : String → Bool
  setFails : String → String → Bool
  scopeCreateFails : String → Bool
  scopeCreated : String → Bool
  attachFails : String → Bool

/-- One observable supervisor mutation performed by the daemon. -/
inductive SysMut : Type
  | setCPUs (unit val : String)
  | createScope (unit : String)
  | attach (unit : String) (pids : List Nat)
deriving DecidableEq, Repr

/-- Source `readAllowedCPUs`: read every managed slice's current value,
failing when any read fails. -/
def readAllowedCPUs (env : TickEnv) (world : World) : List String → Option (List (String × String))
  | [] => some []
  | u :: rest =>
    if env.getFails u then none
    else (readAllowedCPUs env world rest).map (fun m => (u, world u) :: m)

/-- Source `handleTick` lines 254-273: decide whether a reapply is needed. -/
def reapplyNeeded (st : StateFile) (osCPUs : String) (current : List (String × String))
    (slices : List String) : Bool :=
  if st.pinApplied then
    slices.any (fun u =>
      (mapLookup current u).getD "" ≠ osCPUs
      || (match st.originalAllowedCPUs with
          | none => false
          | some orig =>
            (mapLookup orig u).isNone && (mapLookup current u).getD "" ≠ osCPUs))
  else true

/-- Source `handleTick` lines 285-298: backfill originals for slices not yet
present, adopting the current value only when it differs from `os_cpus` and
recording the empty string otherwise. -/
def backfillOriginals (osCPUs : String) (orig : List (String × String)) :
    List (String × String) → List (String × String)
  | [] => orig
  | (u, v) :: rest =>
    if (mapLookup orig u).isSome then backfillOriginals osCPUs orig rest
    else backfillOriginals osCPUs (mapInsert orig u (if v ≠ osCPUs then v else "")) rest

/-- Source `handleTick` lines 276-298: the `original_allowed_cpus` map the
reapply branch persists — a fresh snapshot of every current value when the
pin was not applied, a backfill of the existing map otherwise. -/
def computeOriginals (st : StateFile) (current : List (String × String))
    (osCPUs : String) : List (String × String) :=
  if st.pinApplied then backfillOriginals osCPUs (st.originalAllowedCPUs.getD []) current
  else current

/-- Source `handleTick` lines 346-357: a pid is new to the unit when it is
absent from the pid→unit map, bound to a different unit, has a zero recorded
or observed start time, or its start time changed. -/
def classifyNew (pidToUnit : List (Nat × PidRecord)) (unit : String)
    (pid : Nat) (startTime : Nat) : Bool :=
  match mapLookup pidToUnit pid with
  | none => true
  | some rec =>
    if rec.unit ≠ unit then true
    else if rec.startTime = 0 || startTime = 0 then true
    else rec.startTime ≠ startTime

/-- Source `restoreSlices`: set every managed slice back to its recorded
original (the empty string when no original is recorded), aborting at the
first failed set.  Returns success, the world reached, and the mutations
performed. -/
def restoreSlices (dry : Bool) (env : TickEnv) (originals : List (String × String)) :
    List String → World → List SysMut → Bool × World × List SysMut
  | [], w, t => (true, w, t)
  | u :: rest, w, t =>
    let val := (mapLookup originals u).getD ""
    if dry then restoreSlices dry env originals rest w t
    else if env.setFails u val then (false, w, t)
    else restoreSlices dry env originals rest (worldSet w u val) (t ++ [.setCPUs u val])

/-- Source `handleTick` lines 305-312: pin every managed slice to `os_cpus`,
aborting at the first failed set. -/
def pinSlices (dry : Bool) (env : TickEnv) (osCPUs : String) :
    List String → World → List SysMut → Bool × World × List SysMut
  | [], w, t => (true, w, t)
  | u :: rest, w, t =>
    if dry then pinSlices dry env osCPUs rest w t
    else if env.setFails u osCPUs then (false, w, t)
    else pinSlices dry env osCPUs rest (worldSet w u osCPUs) (t ++ [.setCPUs u osCPUs])

/-- Modelled from the spec (section 6): the missing `systemdctl` package's
`UnitNameForGameID` is a fixed-prefix pure function of the game id ending in
`.scope` (scenario S2 names `ccdbind-game-730.scope`). -/
def unitNameForGameID (gameID : String) : String :=
  "ccdbind-game-" ++ gameID ++ ".scope"

/-- Record every process of a created scope in the pid→unit map. -/
def recordProcs (p2u : List (Nat × PidRecord)) (unit : String) :
    List GameProcess → List (Nat × PidRecord)
  | [] => p2u
  | gp :: rest => recordProcs (mapInsert p2u gp.pid ⟨unit, gp.startTime⟩) unit rest

/-- Byte-wise lexicographic strict order on character lists, matching Go's
`<` on the (ASCII) strings compared here. -/
def charsLt : List Char → List Char → Bool
  | [], [] => false
  | [], _ :: _ => true
  | _ :: _, [] => false
  | a :: as, b :: bs => if a = b then charsLt as bs else decide (a.toNat < b.toNat)

/-- Strict `<` on strings via `charsLt`. -/
def strLt (a b : String) : Bool := charsLt a.toList b.toList

/-- Insert into a list sorted by the boolean relation `le`, keeping order. -/
def insertByLe {α : Type} (le : α → α → Bool) (a : α) : List α → List α
  | [] => [a]
  | b :: rest => if le a b then a :: b :: rest else b :: insertByLe le a rest

/-- Insertion sort by a boolean relation, modelling Go's `sort` package on
the total orders used here. -/
def sortByLe {α : Type} (le : α → α → Bool) (l : List α) : List α :=
  l.foldr (insertByLe le) []

/-- Source `handleTick` lines 324-328: iterate games in ascending game-id
order (`sort.Strings`). -/
def sortGamesByID (games : List (String × List GameProcess)) :
    List (String × List GameProcess) :=
  sortByLe (fun a b => !strLt b.1 a.1) games

/-- Source `handleTick` lines 330-390: the per-game loop.  Returns success,
the updated pid→unit map, the world and mutation trace reached, and the pids
seen alive.  On an aborted tick the partially updated map is kept, matching
the in-place mutation of `r.pidToUnit`. -/
def gamesLoop (dry : Bool) (env : TickEnv) (gameCPUs : String) :
    List (String × List GameProcess) → List (Nat × PidRecord) → World →
    List SysMut → List Nat →
    Bool × List (Nat × PidRecord) × World × List SysMut × List Nat
  | [], p2u, w, t, alive => (true, p2u, w, t, alive)
  | (gameID, procs) :: rest, p2u, w, t, alive =>
    let unit := unitNameForGameID gameID
    if procs.isEmpty then gamesLoop dry env gameCPUs rest p2u w t alive
    else
      let alive1 := alive ++ procs.map (·.pid)
      let newProcs := procs.filter (fun gp => classifyNew p2u unit gp.pid gp.startTime)
      if !dry && env.scopeCreateFails unit then (false, p2u, w, t, alive1)
      else
        let created := env.scopeCreated unit
        let t1 := if dry then t else t ++ [.createScope unit]
        if !dry && env.setFails unit gameCPUs then (false, p2u, w, t1, alive1)
        else
          let w1 := if dry then w else worldSet w unit gameCPUs
          let t2 := if dry then t1 else t1 ++ [.setCPUs unit gameCPUs]
          if created then
            gamesLoop dry env gameCPUs rest (recordProcs p2u unit procs) w1 t2 alive1
          else if !newProcs.isEmpty then
            if !dry && env.attachFails unit then (false, p2u, w1, t2, alive1)
            else
              let t3 := if dry then t2 else t2 ++ [.attach unit (newProcs.map (·.pid))]
              gamesLoop dry env gameCPUs rest (recordProcs p2u unit newProcs) w1 t3 alive1
          else gamesLoop dry env gameCPUs rest p2u w1 t2 alive1

/-- Source `handleTick` lines 392-396: purge pid→unit entries whose pids
were not seen alive this tick. -/
def purgeDead (p2u : List (Nat × PidRecord)) (alive : List Nat) : List (Nat × PidRecord) :=
  p2u.filter (fun e => alive.contains e.1)

/-- The observable outcome of one reconciliation tick: whether it succeeded,
the in-memory state, the systemd world, every state-file save performed, the
supervisor mutations performed, and the new pid→unit map. -/
structure TickResult : Type where
  ok : Bool
  st : StateFile
  world : World
  saves : List StateFile
  muts : List SysMut
  pidToUnit : List (Nat × PidRecord)

/-- Source `handleTick`: one reconciliation tick over a scan result. -/
def handleTick (env : TickEnv) (r : DaemonRuntime) (slices : List String)
    (st : StateFile) (games : List (String × List GameProcess)) (world : World) :
    TickResult :=
  if games.isEmpty then
    if st.pinApplied then
      match restoreSlices r.dryRun env (st.originalAllowedCPUs.getD []) slices world [] with
      | (true, w, t) =>
        let st1 := { st with pinApplied := false }
        { ok := true, st := st1, world := w, saves := [st1], muts := t, pidToUnit := [] }
      | (false, w, t) =>
        { ok := false, st := st, world := w, saves := [], muts := t,
          pidToUnit := r.pidToUnit }
    else
      { ok := true, st := st, world := world, saves := [], muts := [],
        pidToUnit := r.pidToUnit }
  else
    match readAllowedCPUs env world slices with
    | none =>
      { ok := false, st := st, world := world, saves := [], muts := [],
        pidToUnit := r.pidToUnit }
    | some current =>
      let pinPhase :
          Bool × StateFile × List StateFile × World × List SysMut :=
        if reapplyNeeded st r.osCPUs current slices then
          let orig := computeOriginals st current r.osCPUs
          match pinSlices r.dryRun env r.osCPUs slices world [] with
          | (true, w1, t1) =>
            let st1 : StateFile :=
              { pinApplied := true, originalAllowedCPUs := some orig,
                osCPUs := r.osCPUs, gameCPUs := r.gameCPUs }
            (true, st1, [st1], w1, t1)
          | (false, w1, t1) => (false, st, [], w1, t1)
        else (true, st, [], world, [])
      match pinPhase with
      | (false, st1, sv, w1, t1) =>
        { ok := false, st := st1, world := w1, saves := sv, muts := t1,
          pidToUnit := r.pidToUnit }
      | (true, st1, sv, w1, t1) =>
        match gamesLoop r.dryRun env r.gameCPUs (sortGamesByID games) r.pidToUnit w1 t1 [] with
        | (false, p2u, w2, t2, _) =>
          { ok := false, st := st1, world := w2, saves := sv, muts := t2, pidToUnit := p2u }
        | (true, p2u, w2, t2, alive) =>
          { ok := true, st := st1, world := w2, saves := sv, muts := t2,
            pidToUnit := purgeDead p2u alive }

/-- Topology detection result (`topology.Result`), restricted to the fields
`resolveCPUs` reads. -/
structure TopoResult : Type where
  osCPUs : String
  gameCPUs : String
deriving DecidableEq, Repr

/-- The errors `resolveCPUs` can surface. -/
inductive ResolveErr : Type
  | invalidOSCPUs (e : CPUListErr)
  | invalidGameCPUs (e : CPUListErr)
  | topoFailed
  | singleGroup
deriving DecidableEq, Repr

/-- Source `resolveCPUs`: canonicalize the config overrides when both are
supplied, otherwise fall back to topology detection (passed in as `det`,
since detection reads sysfs). -/
def resolveCPUs (osOverride gameOverride : String) (det : Except Unit TopoResult) :
    Except ResolveErr (String × String) :=
  if ¬(trimStr osOverride).isEmpty ∧ ¬(trimStr gameOverride).isEmpty then
    match canonicalizeCPUList osOverride with
    | .error e => .error (.invalidOSCPUs e)
    | .ok osCanonical =>
      match canonicalizeCPUList gameOverride with
      | .error e => .error (.invalidGameCPUs e)
      | .ok gameCanonical => .ok (osCanonical, gameCanonical)
  else
    match det with
    | .error _ => .error .topoFailed
    | .ok res =>
      if res.gameCPUs = "" then .error .singleGroup
      else .ok (res.osCPUs, res.gameCPUs)

example : resolveCPUs "5-3" "" (.ok ⟨"0-7", "8-15"⟩) = .ok ("0-7", "8-15") := by decide
example : resolveCPUs "5-3" "8-15" (.ok ⟨"0-7", "8-15"⟩)
    = .error (.invalidOSCPUs .invalidCPUList) := by decide

/-!
Embedding of the ccdpin wrapper's multi-instance pin coordinator
(`slicePinManager` in the wrapper source).  Instance keys are the decimal
pid strings of Go; since `strconv.Itoa`/`strconv.Atoi` round-trip on the
positive pids used, keys are modelled directly as naturals, with `0`
standing for the `pid <= 0` / unparsable-key case that pruning drops.
-/

/-- The wrapper coordinator's persisted state (`pinState`); `UpdatedAt` is
omitted.  Nil and empty Go maps are both modelled by `[]` (the code only
tests them via `len`). -/
structure PinStateW : Type where
  version : Nat
  instances : List (Nat × Nat)
  originalAllowedCPUs : List (String × String)
  osCPUs : String
  slices : List String
deriving DecidableEq, Repr

/-- Environment oracle for the wrapper: `live pid` is the result of
`procStartTime pid` (`none` models a read error, i.e. a dead process), and
the two failure oracles drive `GetAllowedCPUs` / `SetAllowedCPUs`. -/
structure WrapEnv : Type where
  live : Nat → Option Nat
  getFails : String → Bool
  setFails : String → String → Bool

/-- Source `pruneDeadInstances`: keep an instance only when its pid is
positive, its start time is readable, and the recorded and live start times
do not conflict (either may be zero). -/
def pruneDead (env : WrapEnv) (inst : List (Nat × Nat)) : List (Nat × Nat) :=
  inst.filter (fun e =>
    if e.1 = 0 then false
    else
      match env.live e.1 with
      | none => false
      | some liveStart => !(decide (e.2 ≠ 0) && decide (liveStart ≠ 0) && decide (liveStart ≠ e.2)))

/-- Set loop of `pinSlicesLocked`: pin each readable slice to `os_cpus`,
aborting at the first failure. -/
def wrapSetLoop (env : WrapEnv) (osCPUs : String) : List String → World → Bool × World
  | [], w => (true, w)
  | u :: rest, w =>
    if env.setFails u osCPUs then (false, w)
    else wrapSetLoop env osCPUs rest (worldSet w u osCPUs)

/-- Best-effort rollback of `pinSlicesLocked`: restore each pinned slice to
its snapshotted original, ignoring failures. -/
def wrapRollback (env : WrapEnv) (current : List (String × String)) :
    List String → World → World
  | [], w => w
  | u :: rest, w =>
    match mapLookup current u with
    | none => wrapRollback env current rest w
    | some orig =>
      if env.setFails u orig then wrapRollback env current rest w
      else wrapRollback env current rest (worldSet w u orig)

/-- Source `pinSlicesLocked`: snapshot the readable slices' current values
into the state, then pin them all, rolling back on failure.  Returns
success, the state as mutated, and the world reached. -/
def wrapPinSlices (env : WrapEnv) (osCPUs : String) (slices : List String)
    (st : PinStateW) (world : World) : Bool × PinStateW × World :=
  let pinned := slices.filter (fun u => !env.getFails u)
  let current : List (String × String) := pinned.map (fun u => (u, world u))
  if pinned.isEmpty then (false, st, world)
  else
    let st1 := { st with originalAllowedCPUs := current, osCPUs := osCPUs, slices := pinned }
    match wrapSetLoop env osCPUs pinned world with
    | (true, w) => (true, st1, w)
    | (false, w) => (false, st1, wrapRollback env current pinned w)

/-- Result of `AcquireAndPin`: success, the state as persisted under the
lock, the world reached, and whether the pin step ran (it is this
instance's responsibility to pin). -/
structure AcqResult : Type where
  ok : Bool
  st : PinStateW
  world : World
  pinAttempted : Bool

/-- Source `AcquireAndPin`: under the file lock, prune dead instances,
insert self, pin when this left exactly one instance; on pin failure remove
self again and persist before reporting the error. -/
def acquireAndPin (env : WrapEnv) (osCPUs : String) (slices : List String)
    (selfPid selfStart : Nat) (st0 : PinStateW) (world : World) : AcqResult :=
  let st1 := { st0 with instances := pruneDead env st0.instances }
  let inst2 := mapInsert st1.instances selfPid selfStart
  let st2 := { st1 with instances := inst2 }
  if inst2.length = 1 then
    match wrapPinSlices env osCPUs slices st2 world with
    | (true, st3, w1) => { ok := true, st := st3, world := w1, pinAttempted := true }
    | (false, st3, w1) =>
      { ok := false, st := { st3 with instances := mapErase st3.instances selfPid },
        world := w1, pinAttempted := true }
  else { ok := true, st := st2, world := world, pinAttempted := false }

/-- Restore loop of `releaseAndRestore`: set each recorded slice back to its
original, ignoring failures. -/
def wrapRestore (env : WrapEnv) (orig : List (String × String)) :
    List String → World → World
  | [], w => w
  | u :: rest, w =>
    let v := (mapLookup orig u).getD ""
    if env.setFails u v then wrapRestore env orig rest w
    else wrapRestore env orig rest (worldSet w u v)

/-- Prune dead instances and remove self (when the recorded start time
matches or either is zero) — the instance map `releaseAndRestore` leaves. -/
def releaseInstances (env : WrapEnv) (selfPid selfStart : Nat)
    (inst : List (Nat × Nat)) : List (Nat × Nat) :=
  let pruned := pruneDead env inst
  match mapLookup pruned selfPid with
  | some ts =>
    if ts = 0 || selfStart = 0 || ts = selfStart then mapErase pruned selfPid
    else pruned
  | none => pruned

/-- Source `releaseAndRestore`: under the file lock, prune dead instances
and remove self (when the recorded start time matches or either is zero);
when no instance remains and originals are recorded, restore every recorded
slice and clear the originals, `os_cpus` and `slices` fields. -/
def releaseAndRestore (env : WrapEnv) (selfPid selfStart : Nat)
    (st0 : PinStateW) (world : World) : PinStateW × World :=
  let inst2 := releaseInstances env selfPid selfStart st0.instances
  let st2 := { st0 with instances := inst2 }
  if inst2.isEmpty ∧ ¬st2.originalAllowedCPUs.isEmpty then
    let w1 := wrapRestore env st2.originalAllowedCPUs st2.slices world
    ({ st2 with originalAllowedCPUs := [], osCPUs := "", slices := [] }, w1)
  else (st2, world)

/-- Outcome of the wrapper's `main` after argument parsing and resolution. -/
inductive WrapOutcome : Type
  | printedTopo
  | noCommand
  | ranChild (pinCleanupArmed : Bool)
deriving DecidableEq, Repr

/-- Source wrapper `main` (after `resolve` succeeds): print-and-exit, fail
on a missing command, otherwise always run the child; the restore cleanup is
armed only when the pin acquisition succeeded. -/
def wrapperMain (printFlag : Bool) (cmd : List String) (noOSPin : Bool)
    (acquireOK : Bool) : WrapOutcome :=
  if printFlag then .printedTopo
  else if cmd.isEmpty then .noCommand
  else .ranChild (!noOSPin && acquireOK)

/-!
Embedding of the status reporter's "all" mode (`runStatus` in
`cmd/ccdbind/status.go`).
-/

/-- One row of the all-mode summary (`statusProgramSummary`).  The Go field
`Class` is spelled `cls` here (`class` is reserved). -/
structure ProgramSummary : Type where
  exe : String
  cls : String
  allowedCPUs : String
  count : Nat
  samplePIDs : List Nat
deriving DecidableEq, Repr

/-- Source `runStatus` lines 187-195: classify a process's allowed mask as
`os`, `game`, or skip. -/
def classOf (osCPUs gameCPUs : String) (allowed : String) : Option String :=
  if osCPUs ≠ "" ∧ allowed = osCPUs then some "os"
  else if gameCPUs ≠ "" ∧ allowed = gameCPUs then some "game"
  else none

/-- Update one group with one more process: bump the count and keep at most
8 sample pids. -/
def updateGroup (g : ProgramSummary) (p : CPUConstraint) : ProgramSummary :=
  { g with count := g.count + 1,
           samplePIDs :=
             if g.samplePIDs.length < 8 then g.samplePIDs ++ [p.pid]
             else g.samplePIDs }

/-- Add one process to the group keyed by its executable and class, creating
the group on first sight; at most 8 sample pids are kept per group. -/
def insertIntoGroup : List ProgramSummary → CPUConstraint → String → List ProgramSummary
  | [], p, c => [⟨p.exe, c, p.allowedCPUs, 1, [p.pid]⟩]
  | g :: gs, p, c =>
    if g.exe = p.exe ∧ g.cls = c then updateGroup g p :: gs
    else g :: insertIntoGroup gs p c

/-- Source `runStatus` lines 185-206: fold every scanned process into its
`(exe, class)` group, skipping unclassified processes. -/
def addToGroups (osCPUs gameCPUs : String) (groups : List ProgramSummary)
    (p : CPUConstraint) : List ProgramSummary :=
  match classOf osCPUs gameCPUs p.allowedCPUs with
  | none => groups
  | some c => insertIntoGroup groups p c

/-- Source `runStatus` lines 212-220: the sort comparator — class
ascending, then count descending, then executable ascending. -/
def summaryLess (a b : ProgramSummary) : Bool :=
  if a.cls ≠ b.cls then strLt a.cls b.cls
  else if a.count ≠ b.count then decide (b.count < a.count)
  else strLt a.exe b.exe

/-- The all-mode summary list: group every classified process, then sort by
the comparator. -/
def statusAllSummaries (osCPUs gameCPUs : String) (all : List CPUConstraint) :
    List ProgramSummary :=
  sortByLe (fun a b => !summaryLess b a) (all.foldl (addToGroups osCPUs gameCPUs) [])

/-- The full all-mode pipeline: scan the user's process table, then group
and sort. -/
def statusAll (uid : Nat) (osCPUs gameCPUs : String) (entries : List ProcEntry) :
    List ProgramSummary :=
  statusAllSummaries osCPUs gameCPUs (scanUserCPUConstraints uid entries)

/-!
Claim C7: best-effort allowed-CPUs canonicalization.
-/

/-- C7 — Best-effort allowed-CPUs canonicalization: when the status file
carries a `Cpus_allowed_list` value the reader returns it canonicalized,
falling back to the raw (trimmed) value when canonicalization fails; when
the value is absent the read reports an error rather than an empty value. -/
theorem allowed_cpus_best_effort (lines : List String) :
    (∀ raw c, allowedCPUsFromStatus lines = some raw →
      canonicalizeCPUList raw = .ok c → allowedCPUsAt lines = .ok c)
    ∧ (∀ raw e, allowedCPUsFromStatus lines = some raw →
      canonicalizeCPUList raw = .error e → allowedCPUsAt lines = .ok (trimStr raw))
    ∧ (allowedCPUsFromStatus lines = none →
      allowedCPUsAt lines = .error "Cpus_allowed_list not found") := by
  refine ⟨fun raw c hr hc => ?_, fun raw e hr hc => ?_, fun hr => ?_⟩
  · unfold allowedCPUsAt; rw [hr]; simp [hc]
  · unfold allowedCPUsAt; rw [hr]; simp [hc]
  · unfold allowedCPUsAt; rw [hr]

/-- C7 witness: a canonicalizable value, a non-canonicalizable value kept
raw, and a missing value reported as an error. -/
theorem allowed_cpus_best_effort_witness :
    allowedCPUsAt ["Name:\tsteam", "Cpus_allowed_list:\t2,0-1"] = .ok "0-2"
    ∧ allowedCPUsAt ["Cpus_allowed_list:\t5-3"] = .ok (trimStr "5-3")
    ∧ allowedCPUsAt ["Name:\tsteam"] = .error "Cpus_allowed_list not found" :=
  ⟨(allowed_cpus_best_effort _).1 "2,0-1" "0-2" (by decide) (by decide),
   (allowed_cpus_best_effort _).2.1 "5-3" .invalidCPUList (by decide) (by decide),
   (allowed_cpus_best_effort _).2.2 (by decide)⟩

/-!
Claim C6: the daemon only validates the CPU overrides when both are
supplied; a lone malformed `os_cpus` override is silently ignored.
-/

/-- C6 counterexample: the user supplies the malformed override
`os_cpus="5-3"` alone; startup does not fail with `InvalidCPUList` — the
override is ignored and detection results are used. -/
theorem invalid_oscpus_ignored_counterexample :
    canonicalizeCPUList "5-3" = .error .invalidCPUList
    ∧ resolveCPUs "5-3" "" (.ok ⟨"0-7", "8-15"⟩) = .ok ("0-7", "8-15") := by
  decide

/-- C6 (amended) — when both CPU overrides are supplied and the `os_cpus`
override is malformed or has an inverted range, startup resolution fails
with the `InvalidCPUList` error. -/
theorem invalid_oscpus_failfast (osOverride gameOverride : String)
    (det : Except Unit TopoResult) (e : CPUListErr)
    (hos : (trimStr osOverride).isEmpty = false)
    (hgame : (trimStr gameOverride).isEmpty = false)
    (hbad : canonicalizeCPUList osOverride = .error e) :
    resolveCPUs osOverride gameOverride det = .error (.invalidOSCPUs e) := by
  unfold resolveCPUs
  rw [if_pos (by simp [hos, hgame])]
  rw [hbad]

/-- C6 witness: `os_cpus="5-3"` with a game override supplied fails fast. -/
theorem invalid_oscpus_failfast_witness :
    resolveCPUs "5-3" "8-15" (.ok ⟨"", ""⟩) = .error (.invalidOSCPUs .invalidCPUList) :=
  invalid_oscpus_failfast "5-3" "8-15" _ .invalidCPUList (by decide) (by decide) (by decide)

/-!
Claims C5 and C9: pid-reuse classification.  The code treats a pid as new
also when the recorded and observed start times are both zero and equal,
so the claimed "if and only if" needs the zero cases added.
-/

/-- C5 counterexample: a pid present in the map, bound to the same unit,
with equal recorded and observed start times (both zero) is still
classified as new, contradicting the claimed characterization. -/
theorem pid_classification_counterexample :
    classifyNew [(1, (⟨"u", 0⟩ : PidRecord))] "u" 1 0 = true
    ∧ mapLookup [(1, (⟨"u", 0⟩ : PidRecord))] 1 = some ⟨"u", 0⟩
    ∧ ¬((⟨"u", 0⟩ : PidRecord).unit ≠ "u" ∨ (⟨"u", 0⟩ : PidRecord).startTime ≠ 0) := by
  decide

/-- C5 (amended) — a pid is classified as new to the unit if and only if it
is absent from the pid→unit map, or bound to a different unit, or the
recorded or observed start time is zero, or the start times differ. -/
theorem pid_classification_iff (p2u : List (Nat × PidRecord)) (unit : String)
    (pid ts : Nat) :
    classifyNew p2u unit pid ts = true ↔
      mapLookup p2u pid = none
      ∨ ∃ rec, mapLookup p2u pid = some rec
          ∧ (rec.unit ≠ unit ∨ rec.startTime = 0 ∨ ts = 0 ∨ rec.startTime ≠ ts) := by
  unfold classifyNew
  cases h : mapLookup p2u pid with
  | none => simp
  | some rec =>
    simp only [Option.some.injEq, reduceCtorEq, false_or]
    constructor
    · intro htrue
      refine ⟨rec, rfl, ?_⟩
      by_cases hu : rec.unit = unit <;> by_cases h0 : rec.startTime = 0 <;>
        by_cases h1 : ts = 0 <;> simp_all
    · rintro ⟨rec2, hrec2, hcases⟩
      obtain rfl := hrec2
      by_cases hu : rec.unit = unit <;> by_cases h0 : rec.startTime = 0 <;>
        by_cases h1 : ts = 0 <;> simp_all

/-- C9 — Zero start-time conservatism: a pid already bound to the same unit
is still classified as new when either the recorded or the observed start
time is zero. -/
theorem zero_starttime_conservative (p2u : List (Nat × PidRecord)) (unit : String)
    (pid ts : Nat) (rec : PidRecord) (hlook : mapLookup p2u pid = some rec)
    (hunit : rec.unit = unit) (hzero : rec.startTime = 0 ∨ ts = 0) :
    classifyNew p2u unit pid ts = true := by
  unfold classifyNew
  rw [hlook]
  simp only [hunit, ne_eq, not_true_eq_false, if_false]
  rcases hzero with h | h <;> simp [h]

/-- C9 witness: recorded start time zero, equal observed value, same unit —
still new. -/
theorem zero_starttime_conservative_witness :
    classifyNew [(1, (⟨"u", 0⟩ : PidRecord))] "u" 1 7 = true :=
  zero_starttime_conservative [(1, ⟨"u", 0⟩)] "u" 1 7 ⟨"u", 0⟩ (by decide) rfl
    (Or.inl rfl)

/-!
Association-list and loop lemmas used by the reconciler claims.
-/

/-- Keys other than the filtered one look up unchanged. -/
theorem mapLookup_filter_ne {α β : Type} [DecidableEq α] (m : List (α × β)) (k a : α)
    (h : a ≠ k) : mapLookup (m.filter (fun p => p.1 ≠ k)) a = mapLookup m a := by
  induction m with
  | nil => rfl
  | cons p rest ih =>
    obtain ⟨k0, v0⟩ := p
    simp only [ne_eq, decide_not] at ih
    by_cases hk : k0 = k
    · subst hk
      simp [List.filter_cons, mapLookup, h, ih]
    · by_cases ha : a = k0
      · simp [List.filter_cons, mapLookup, hk, ha]
      · simp [List.filter_cons, mapLookup, hk, ha, ih]

/-- Looking up the freshly inserted key. -/
theorem mapLookup_insert_self {α β : Type} [DecidableEq α] (m : List (α × β)) (k : α)
    (v : β) : mapLookup (mapInsert m k v) k = some v := by
  simp [mapInsert, mapLookup]

/-- Looking up a different key after an insertion. -/
theorem mapLookup_insert_ne {α β : Type} [DecidableEq α] (m : List (α × β)) (k a : α)
    (v : β) (h : a ≠ k) : mapLookup (mapInsert m k v) a = mapLookup m a := by
  simp only [mapInsert, mapLookup, if_neg h]
  exact mapLookup_filter_ne m k a h

/-- Looking up a slice in the current-values map built from the world. -/
theorem mapLookup_map_world (w : World) (slices : List String) (u : String)
    (h : u ∈ slices) : mapLookup (slices.map (fun s => (s, w s))) u = some (w u) := by
  induction slices with
  | nil => cases h
  | cons s rest ih =>
    unfold mapLookup
    by_cases hu : u = s
    · subst hu; simp
    · simp only [List.map_cons, hu, if_neg hu]
      exact ih (by rcases List.mem_cons.mp h with h1 | h1; exact absurd h1 hu; exact h1)

/-- Backfilling never overwrites an entry already present. -/
theorem backfill_preserve (osCPUs : String) (cur : List (String × String)) :
    ∀ orig u v, mapLookup orig u = some v →
      mapLookup (backfillOriginals osCPUs orig cur) u = some v := by
  induction cur with
  | nil => intro orig u v h; simpa [backfillOriginals] using h
  | cons p rest ih =>
    intro orig u v h
    obtain ⟨u0, v0⟩ := p
    unfold backfillOriginals
    by_cases h0 : (mapLookup orig u0).isSome
    · rw [if_pos h0]; exact ih orig u v h
    · rw [if_neg h0]
      apply ih
      have hne : u ≠ u0 := by
        intro he; subst he; rw [h] at h0; simp at h0
      rw [mapLookup_insert_ne _ _ _ _ hne]
      exact h

/-- Backfilling records a missing slice's current value, or the empty string
when that value equals `os_cpus`. -/
theorem backfill_new (osCPUs : String) (cur : List (String × String)) :
    ∀ orig u val, mapLookup orig u = none → mapLookup cur u = some val →
      mapLookup (backfillOriginals osCPUs orig cur) u
        = some (if val ≠ osCPUs then val else "") := by
  induction cur with
  | nil => intro orig u val _ h2; simp [mapLookup] at h2
  | cons p rest ih =>
    intro orig u val h1 h2
    obtain ⟨u0, v0⟩ := p
    unfold backfillOriginals
    by_cases hu : u = u0
    · subst hu
      have hval : v0 = val := by
        unfold mapLookup at h2; simpa using h2
      subst hval
      rw [if_neg (by simp [h1])]
      exact backfill_preserve osCPUs rest _ u _ (mapLookup_insert_self _ _ _)
    · have h2' : mapLookup rest u = some val := by
        unfold mapLookup at h2; rwa [if_neg hu] at h2
      by_cases h0 : (mapLookup orig u0).isSome
      · rw [if_pos h0]; exact ih orig u val h1 h2'
      · rw [if_neg h0]
        exact ih _ u val (by rw [mapLookup_insert_ne _ _ _ _ hu]; exact h1) h2'

/-- Backfilling adds entries only for slices present in the current map. -/
theorem backfill_none (osCPUs : String) (cur : List (String × String)) :
    ∀ orig u, mapLookup orig u = none → mapLookup cur u = none →
      mapLookup (backfillOriginals osCPUs orig cur) u = none := by
  induction cur with
  | nil => intro orig u h1 _; simpa [backfillOriginals] using h1
  | cons p rest ih =>
    intro orig u h1 h2
    obtain ⟨u0, v0⟩ := p
    have hu : u ≠ u0 := by
      intro he; subst he; unfold mapLookup at h2; simp at h2
    have h2' : mapLookup rest u = none := by
      unfold mapLookup at h2; rwa [if_neg hu] at h2
    unfold backfillOriginals
    by_cases h0 : (mapLookup orig u0).isSome
    · rw [if_pos h0]; exact ih orig u h1 h2'
    · rw [if_neg h0]
      exact ih _ u (by rw [mapLookup_insert_ne _ _ _ _ hu]; exact h1) h2'

/-- With no failing reads, `readAllowedCPUs` returns the current value of
every managed slice. -/
theorem readAllowedCPUs_ok (env : TickEnv) (w : World)
    (h : ∀ u, env.getFails u = false) :
    ∀ slices, readAllowedCPUs env w slices = some (slices.map (fun u => (u, w u))) := by
  intro slices
  induction slices with
  | nil => rfl
  | cons s rest ih => unfold readAllowedCPUs; rw [h s]; simp [ih]

/-- With no failing sets, the pin loop succeeds. -/
theorem pinSlices_ok (dry : Bool) (env : TickEnv) (osCPUs : String)
    (h : ∀ u, env.setFails u osCPUs = false) :
    ∀ l w t, (pinSlices dry env osCPUs l w t).1 = true := by
  intro l
  induction l with
  | nil => intro w t; rfl
  | cons s rest ih =>
    intro w t
    unfold pinSlices
    cases dry with
    | true => simpa using ih w t
    | false => simp only [Bool.false_eq_true, if_false, h s]; exact ih _ _

/-- A successful (non-dry) restore sets every managed slice to its recorded
original — the empty string when none is recorded — and touches no other
unit. -/
theorem restoreSlices_world (env : TickEnv) (orig : List (String × String)) :
    ∀ l w t, (restoreSlices false env orig l w t).1 = true →
      ∀ u, (restoreSlices false env orig l w t).2.1 u
        = if u ∈ l then (mapLookup orig u).getD "" else w u := by
  intro l
  induction l with
  | nil => intro w t _ u; simp [restoreSlices]
  | cons s rest ih =>
    intro w t hok u
    unfold restoreSlices at hok ⊢
    simp only [Bool.false_eq_true, if_false] at hok ⊢
    by_cases hf : env.setFails s ((mapLookup orig s).getD "")
    · rw [if_pos hf] at hok; cases hok
    · rw [if_neg hf] at hok ⊢
      rw [ih _ _ hok u]
      by_cases hmem : u ∈ rest
      · simp [hmem, List.mem_cons.mpr (Or.inr hmem)]
      · by_cases hu : u = s
        · subst hu; simp [hmem, worldSet]
        · simp [hmem, hu, worldSet]

/-- On a tick with games present, readable slices, successful sets and a
needed reapply, the persisted state carries the reapply snapshot. -/
theorem handleTick_reapply_st (env : TickEnv) (r : DaemonRuntime) (slices : List String)
    (st : StateFile) (games : List (String × List GameProcess)) (world : World)
    (hgames : games.isEmpty = false) (hget : ∀ u, env.getFails u = false)
    (hset : ∀ u, env.setFails u r.osCPUs = false)
    (hreapply : reapplyNeeded st r.osCPUs (slices.map (fun u => (u, world u))) slices = true) :
    (handleTick env r slices st games world).st
      = { pinApplied := true,
          originalAllowedCPUs :=
            some (computeOriginals st (slices.map (fun u => (u, world u))) r.osCPUs),
          osCPUs := r.osCPUs, gameCPUs := r.gameCPUs } := by
  have hread := readAllowedCPUs_ok env world hget slices
  have hpin := pinSlices_ok r.dryRun env r.osCPUs hset slices world []
  rcases hps : pinSlices r.dryRun env r.osCPUs slices world [] with ⟨ok1, w1, t1⟩
  have hok1 : ok1 = true := by rw [hps] at hpin; exact hpin
  subst hok1
  rcases hgl : gamesLoop r.dryRun env r.gameCPUs (sortGamesByID games) r.pidToUnit w1 t1 []
    with ⟨ok2, p2u2, w2, t2, al2⟩
  cases ok2 <;> simp [handleTick, hgames, hread, hreapply, hps, hgl]

/-- C1 — Reconciler original-value backfill: when a reapply is needed the
persisted originals map is the computed snapshot/backfill; from
`pin_applied = true` existing entries are never overwritten, missing slices
are recorded with their current value exactly when it differs from
`os_cpus` and with the empty string otherwise, and no entry is invented for
a slice without a current value; from `pin_applied = false` every managed
slice's current value is snapshotted. -/
theorem reconciler_backfill_originals (env : TickEnv) (r : DaemonRuntime)
    (slices : List String) (st : StateFile)
    (games : List (String × List GameProcess)) (world : World)
    (hgames : games.isEmpty = false) (hget : ∀ u, env.getFails u = false)
    (hset : ∀ u, env.setFails u r.osCPUs = false)
    (hreapply : reapplyNeeded st r.osCPUs (slices.map (fun u => (u, world u))) slices = true) :
    (handleTick env r slices st games world).st.originalAllowedCPUs
      = some (computeOriginals st (slices.map (fun u => (u, world u))) r.osCPUs)
    ∧ (st.pinApplied = true →
        (∀ u v, mapLookup (st.originalAllowedCPUs.getD []) u = some v →
          mapLookup (computeOriginals st (slices.map (fun s => (s, world s))) r.osCPUs) u
            = some v)
        ∧ (∀ u val, mapLookup (st.originalAllowedCPUs.getD []) u = none →
            mapLookup (slices.map (fun s => (s, world s))) u = some val →
            mapLookup (computeOriginals st (slices.map (fun s => (s, world s))) r.osCPUs) u
              = some (if val ≠ r.osCPUs then val else ""))
        ∧ (∀ u, mapLookup (st.originalAllowedCPUs.getD []) u = none →
            mapLookup (slices.map (fun s => (s, world s))) u = none →
            mapLookup (computeOriginals st (slices.map (fun s => (s, world s))) r.osCPUs) u
              = none))
    ∧ (st.pinApplied = false → ∀ u, u ∈ slices →
        mapLookup (computeOriginals st (slices.map (fun s => (s, world s))) r.osCPUs) u
          = some (world u)) := by
  refine ⟨?_, fun hp => ⟨fun u v hv => ?_, fun u val h1 h2 => ?_, fun u h1 h2 => ?_⟩,
    fun hp u hu => ?_⟩
  · rw [handleTick_reapply_st env r slices st games world hgames hget hset hreapply]
  · simp only [computeOriginals, hp, if_true]
    exact backfill_preserve r.osCPUs _ _ u v hv
  · simp only [computeOriginals, hp, if_true]
    exact backfill_new r.osCPUs _ _ u val h1 h2
  · simp only [computeOriginals, hp, if_true]
    exact backfill_none r.osCPUs _ _ u h1 h2
  · simp only [computeOriginals, hp, Bool.false_eq_true, if_false]
    exact mapLookup_map_world world slices u hu

/-- C1 witness: one tick with a pinned state missing an original for
`background.slice` (currently tampered to `"0-15"`) and one for a slice
already at `os_cpus`; the tampered value is adopted, the pinned one is
recorded as the empty string, and the existing entry survives. -/
theorem reconciler_backfill_originals_witness :
    (handleTick
        ⟨fun _ => false, fun _ _ => false, fun _ => false, fun _ => true, fun _ => false⟩
        ⟨false, "0-7", "8-15", []⟩ ["app.slice", "background.slice", "session.slice"]
        ⟨true, some [("app.slice", "2-9")], "0-7", "8-15"⟩ [("730", [⟨41, 5⟩])]
        (fun u => if u = "background.slice" then "0-15" else "0-7")).st.originalAllowedCPUs
      = some (computeOriginals ⟨true, some [("app.slice", "2-9")], "0-7", "8-15"⟩
          ((["app.slice", "background.slice", "session.slice"]).map
            (fun u => (u, (fun u => if u = "background.slice" then "0-15" else "0-7") u)))
          "0-7")
    ∧ mapLookup (computeOriginals ⟨true, some [("app.slice", "2-9")], "0-7", "8-15"⟩
        ((["app.slice", "background.slice", "session.slice"]).map
          (fun s => (s, (fun u => if u = "background.slice" then "0-15" else "0-7") s)))
        "0-7") "app.slice" = some "2-9"
    ∧ mapLookup (computeOriginals ⟨true, some [("app.slice", "2-9")], "0-7", "8-15"⟩
        ((["app.slice", "background.slice", "session.slice"]).map
          (fun s => (s, (fun u => if u = "background.slice" then "0-15" else "0-7") s)))
        "0-7") "background.slice" = some "0-15"
    ∧ mapLookup (computeOriginals ⟨true, some [("app.slice", "2-9")], "0-7", "8-15"⟩
        ((["app.slice", "background.slice", "session.slice"]).map
          (fun s => (s, (fun u => if u = "background.slice" then "0-15" else "0-7") s)))
        "0-7") "session.slice" = some "" := by
  have h := reconciler_backfill_originals
    ⟨fun _ => false, fun _ _ => false, fun _ => false, fun _ => true, fun _ => false⟩
    ⟨false, "0-7", "8-15", []⟩ ["app.slice", "background.slice", "session.slice"]
    ⟨true, some [("app.slice", "2-9")], "0-7", "8-15"⟩ [("730", [⟨41, 5⟩])]
    (fun u => if u = "background.slice" then "0-15" else "0-7")
    (by decide) (fun _ => rfl) (fun _ => rfl) (by decide)
  refine ⟨h.1, (h.2.1 rfl).1 "app.slice" "2-9" (by decide),
    (h.2.1 rfl).2.1 "background.slice" "0-15" (by decide) (by decide),
    (h.2.1 rfl).2.1 "session.slice" "0-7" (by decide) (by decide)⟩

/-- C3 — Restore error atomicity: on a no-games tick with the pin applied,
a failed restore leaves the tick in error with the state unchanged and no
state save, so the next tick retries; a successful restore clears
`pin_applied`, saves exactly once, and has set every managed slice to its
recorded original (the empty string clearing the constraint). -/
theorem restore_error_atomicity (env : TickEnv) (r : DaemonRuntime)
    (slices : List String) (st : StateFile) (world : World)
    (hpin : st.pinApplied = true) (hdry : r.dryRun = false) :
    ((restoreSlices false env (st.originalAllowedCPUs.getD []) slices world []).1 = false →
      (handleTick env r slices st [] world).ok = false
      ∧ (handleTick env r slices st [] world).st = st
      ∧ (handleTick env r slices st [] world).saves = [])
    ∧ ((restoreSlices false env (st.originalAllowedCPUs.getD []) slices world []).1 = true →
      (handleTick env r slices st [] world).ok = true
      ∧ (handleTick env r slices st [] world).st = { st with pinApplied := false }
      ∧ (handleTick env r slices st [] world).saves = [{ st with pinApplied := false }]
      ∧ ∀ u, u ∈ slices →
          (handleTick env r slices st [] world).world u
            = (mapLookup (st.originalAllowedCPUs.getD []) u).getD "") := by
  rcases hrs : restoreSlices false env (st.originalAllowedCPUs.getD []) slices world []
    with ⟨ok, w, t⟩
  constructor
  · intro hok
    have hok' : ok = false := hok
    subst hok'
    simp [handleTick, hpin, hdry, hrs]
  · intro hok
    have hok' : ok = true := hok
    subst hok'
    have hw := restoreSlices_world env (st.originalAllowedCPUs.getD []) slices world []
      (by rw [hrs])
    refine ⟨?_, ?_, ?_, fun u hu => ?_⟩ <;> simp [handleTick, hpin, hdry, hrs]
    have := hw u
    rw [hrs] at this
    simpa [hu] using this

/-- C3 witness: a failing set on `app.slice` aborts the tick without a
save and with the state intact; with no failures the same tick clears the
pin and restores `background.slice` (no recorded original) to the empty
string. -/
theorem restore_error_atomicity_witness :
    ((handleTick
        ⟨fun _ => false, fun u _ => u == "app.slice", fun _ => false, fun _ => true,
          fun _ => false⟩
        ⟨false, "0-7", "8-15", []⟩ ["app.slice", "background.slice"]
        ⟨true, some [("app.slice", "0-15")], "0-7", "8-15"⟩ [] (fun _ => "0-7")).ok = false
      ∧ (handleTick
        ⟨fun _ => false, fun u _ => u == "app.slice", fun _ => false, fun _ => true,
          fun _ => false⟩
        ⟨false, "0-7", "8-15", []⟩ ["app.slice", "background.slice"]
        ⟨true, some [("app.slice", "0-15")], "0-7", "8-15"⟩ [] (fun _ => "0-7")).st
          = ⟨true, some [("app.slice", "0-15")], "0-7", "8-15"⟩
      ∧ (handleTick
        ⟨fun _ => false, fun u _ => u == "app.slice", fun _ => false, fun _ => true,
          fun _ => false⟩
        ⟨false, "0-7", "8-15", []⟩ ["app.slice", "background.slice"]
        ⟨true, some [("app.slice", "0-15")], "0-7", "8-15"⟩ [] (fun _ => "0-7")).saves = [])
    ∧ (handleTick
        ⟨fun _ => false, fun _ _ => false, fun _ => false, fun _ => true, fun _ => false⟩
        ⟨false, "0-7", "8-15", []⟩ ["app.slice", "background.slice"]
        ⟨true, some [("app.slice", "0-15")], "0-7", "8-15"⟩ [] (fun _ => "0-7")).world
          "background.slice" = "" :=
  ⟨(restore_error_atomicity
      ⟨fun _ => false, fun u _ => u == "app.slice", fun _ => false, fun _ => true,
        fun _ => false⟩
      ⟨false, "0-7", "8-15", []⟩ ["app.slice", "background.slice"]
      ⟨true, some [("app.slice", "0-15")], "0-7", "8-15"⟩ (fun _ => "0-7") rfl rfl).1
    (by decide),
   ((restore_error_atomicity
      ⟨fun _ => false, fun _ _ => false, fun _ => false, fun _ => true, fun _ => false⟩
      ⟨false, "0-7", "8-15", []⟩ ["app.slice", "background.slice"]
      ⟨true, some [("app.slice", "0-15")], "0-7", "8-15"⟩ (fun _ => "0-7") rfl rfl).2
    (by decide)).2.2.2 "background.slice" (by decide)⟩

/-- A dry-run restore performs nothing. -/
theorem restoreSlices_dry (env : TickEnv) (orig : List (String × String)) :
    ∀ l w t, restoreSlices true env orig l w t = (true, w, t) := by
  intro l
  induction l with
  | nil => intro w t; rfl
  | cons s rest ih => intro w t; simpa [restoreSlices] using ih w t

/-- A dry-run pin performs nothing. -/
theorem pinSlices_dry (env : TickEnv) (osCPUs : String) :
    ∀ l w t, pinSlices true env osCPUs l w t = (true, w, t) := by
  intro l
  induction l with
  | nil => intro w t; rfl
  | cons s rest ih => intro w t; simpa [pinSlices] using ih w t

/-- A dry-run games loop succeeds and leaves the world and the mutation
trace untouched. -/
theorem gamesLoop_dry (env : TickEnv) (g : String) :
    ∀ l p2u w t a, (gamesLoop true env g l p2u w t a).1 = true
      ∧ (gamesLoop true env g l p2u w t a).2.2.1 = w
      ∧ (gamesLoop true env g l p2u w t a).2.2.2.1 = t := by
  intro l
  induction l with
  | nil => intro p2u w t a; exact ⟨rfl, rfl, rfl⟩
  | cons p rest ih =>
    intro p2u w t a
    obtain ⟨gid, procs⟩ := p
    unfold gamesLoop
    by_cases hp : procs.isEmpty
    · simp only [hp, if_true]
      exact ih p2u w t a
    · simp only [hp, Bool.false_eq_true, if_false, Bool.not_true, Bool.false_and, if_true]
      cases hc : env.scopeCreated (unitNameForGameID gid)
      · by_cases hn :
          (procs.filter fun gp =>
            classifyNew p2u (unitNameForGameID gid) gp.pid gp.startTime).isEmpty
        · simp only [hc, hn, Bool.not_true, Bool.false_eq_true, if_false]
          exact ih p2u w t _
        · simp only [hc, hn, Bool.not_false, Bool.false_eq_true, if_false, if_true]
          exact ih _ w t _
      · simp only [hc, if_true]
        exact ih _ w t _

/-- C4 (amended) — Dry-run performs no supervisor mutation and leaves the
systemd world untouched on every tick; the state file, however, can still
be written (see the counterexample). -/
theorem dry_run_no_supervisor_mutation (env : TickEnv) (r : DaemonRuntime)
    (slices : List String) (st : StateFile)
    (games : List (String × List GameProcess)) (world : World)
    (hdry : r.dryRun = true) :
    (handleTick env r slices st games world).muts = []
    ∧ ∀ u, (handleTick env r slices st games world).world u = world u := by
  unfold handleTick
  rw [hdry]
  by_cases hg : games.isEmpty
  · simp only [hg, if_true]
    by_cases hpin : st.pinApplied
    · simp [hpin, restoreSlices_dry]
    · simp [hpin]
  · simp only [hg, Bool.false_eq_true, if_false]
    rcases hr : readAllowedCPUs env world slices with _ | current
    · simp
    · simp only []
      by_cases hre : reapplyNeeded st r.osCPUs current slices
      · simp only [hre, if_true, pinSlices_dry]
        rcases hgl : gamesLoop true env r.gameCPUs (sortGamesByID games) r.pidToUnit world [] []
          with ⟨ok2, p2u2, w2, t2, a2⟩
        have h2 := gamesLoop_dry env r.gameCPUs (sortGamesByID games) r.pidToUnit world [] []
        rw [hgl] at h2
        obtain ⟨hok2, hw2, ht2⟩ := h2
        subst hok2
        cases hw2
        cases ht2
        simp
      · simp only [hre, Bool.false_eq_true, if_false]
        rcases hgl : gamesLoop true env r.gameCPUs (sortGamesByID games) r.pidToUnit world [] []
          with ⟨ok2, p2u2, w2, t2, a2⟩
        have h2 := gamesLoop_dry env r.gameCPUs (sortGamesByID games) r.pidToUnit world [] []
        rw [hgl] at h2
        obtain ⟨hok2, hw2, ht2⟩ := h2
        subst hok2
        cases hw2
        cases ht2
        simp

/-- C4 counterexample: a dry-run tick that observes a game writes the state
file (the reapply branch saves unconditionally); only systemd mutations are
short-circuited. -/
theorem dry_run_writes_state_counterexample :
    ((⟨true, "0-7", "8-15", []⟩ : DaemonRuntime).dryRun = true)
    ∧ (handleTick
        ⟨fun _ => false, fun _ _ => false, fun _ => false, fun _ => true, fun _ => false⟩
        ⟨true, "0-7", "8-15", []⟩ ["app.slice"] ⟨false, none, "", ""⟩
        [("730", [⟨41, 5⟩])] (fun _ => "0-15")).saves
      = [⟨true, some [("app.slice", "0-15")], "0-7", "8-15"⟩] :=
  ⟨rfl, by decide⟩

/-- C4 witness: the no-mutation half at a concrete dry-run tick. -/
theorem dry_run_no_supervisor_mutation_witness :
    (handleTick
        ⟨fun _ => false, fun _ _ => false, fun _ => false, fun _ => true, fun _ => false⟩
        ⟨true, "0-7", "8-15", []⟩ ["app.slice"] ⟨false, none, "", ""⟩
        [("730", [⟨41, 5⟩])] (fun _ => "0-15")).muts = []
    ∧ (handleTick
        ⟨fun _ => false, fun _ _ => false, fun _ => false, fun _ => true, fun _ => false⟩
        ⟨true, "0-7", "8-15", []⟩ ["app.slice"] ⟨false, none, "", ""⟩
        [("730", [⟨41, 5⟩])] (fun _ => "0-15")).world "app.slice" = "0-15" :=
  ⟨(dry_run_no_supervisor_mutation
      ⟨fun _ => false, fun _ _ => false, fun _ => false, fun _ => true, fun _ => false⟩
      ⟨true, "0-7", "8-15", []⟩ ["app.slice"] ⟨false, none, "", ""⟩
      [("730", [⟨41, 5⟩])] (fun _ => "0-15") rfl).1,
   (dry_run_no_supervisor_mutation
      ⟨fun _ => false, fun _ _ => false, fun _ => false, fun _ => true, fun _ => false⟩
      ⟨true, "0-7", "8-15", []⟩ ["app.slice"] ⟨false, none, "", ""⟩
      [("730", [⟨41, 5⟩])] (fun _ => "0-15") rfl).2 "app.slice"⟩

/-!
Lemmas for the wrapper coordinator claims.
-/

/-- With no failing sets, the wrapper pin loop succeeds and pins exactly
the listed slices. -/
theorem wrapSetLoop_ok (env : WrapEnv) (osCPUs : String)
    (h : ∀ u v, env.setFails u v = false) :
    ∀ l w, (wrapSetLoop env osCPUs l w).1 = true
      ∧ ∀ u, (wrapSetLoop env osCPUs l w).2 u = if u ∈ l then osCPUs else w u := by
  intro l
  induction l with
  | nil => intro w; exact ⟨rfl, fun u => by simp [wrapSetLoop]⟩
  | cons s rest ih =>
    intro w
    unfold wrapSetLoop
    simp only [h s osCPUs, Bool.false_eq_true, if_false]
    refine ⟨(ih _).1, fun u => ?_⟩
    rw [(ih _).2 u]
    by_cases hm : u ∈ rest
    · simp [hm, List.mem_cons.mpr (Or.inr hm)]
    · by_cases hu : u = s
      · subst hu; simp [hm, worldSet]
      · simp [hm, hu, worldSet]

/-- With no failing sets, the wrapper restore loop restores exactly the
listed slices to their recorded originals. -/
theorem wrapRestore_world (env : WrapEnv) (orig : List (String × String))
    (h : ∀ u v, env.setFails u v = false) :
    ∀ l w u, wrapRestore env orig l w u
      = if u ∈ l then (mapLookup orig u).getD "" else w u := by
  intro l
  induction l with
  | nil => intro w u; simp [wrapRestore]
  | cons s rest ih =>
    intro w u
    unfold wrapRestore
    simp only [h s, Bool.false_eq_true, if_false]
    rw [ih _ u]
    by_cases hm : u ∈ rest
    · simp [hm, List.mem_cons.mpr (Or.inr hm)]
    · by_cases hu : u = s
      · subst hu; simp [hm, worldSet]
      · simp [hm, hu, worldSet]

/-- Pruning keeps every instance whose recorded start time matches the live
process table. -/
theorem pruneDead_all_live (env : WrapEnv) (inst : List (Nat × Nat))
    (h : ∀ p ∈ inst, p.1 ≠ 0 ∧ env.live p.1 = some p.2) :
    pruneDead env inst = inst := by
  unfold pruneDead
  apply List.filter_eq_self.mpr
  intro p hp
  obtain ⟨h0, hl⟩ := h p hp
  simp [h0, hl]

/-- A sole live acquirer prunes to itself, snapshots every readable slice,
and pins them all. -/
theorem acquire_sole (env : WrapEnv) (osCPUs : String) (slices : List String)
    (selfPid selfStart : Nat) (st0 : PinStateW) (w0 : World)
    (hinst : pruneDead env st0.instances = [])
    (hget : ∀ u, env.getFails u = false)
    (hset : ∀ u v, env.setFails u v = false)
    (hsl : slices ≠ []) :
    acquireAndPin env osCPUs slices selfPid selfStart st0 w0
      = { ok := true,
          st := { version := st0.version,
                  instances := [(selfPid, selfStart)],
                  originalAllowedCPUs := slices.map (fun u => (u, w0 u)),
                  osCPUs := osCPUs, slices := slices },
          world := (wrapSetLoop env osCPUs slices w0).2,
          pinAttempted := true } := by
  have hfilter : slices.filter (fun u => !env.getFails u) = slices :=
    List.filter_eq_self.mpr (fun u _ => by simp [hget u])
  have hne : slices.isEmpty = false := by
    cases slices with
    | nil => exact absurd rfl hsl
    | cons s rest => rfl
  have hws := wrapSetLoop_ok env osCPUs hset slices w0
  rcases hsw : wrapSetLoop env osCPUs slices w0 with ⟨okw, ww⟩
  have hokw : okw = true := by rw [hsw] at hws; exact hws.1
  subst hokw
  unfold acquireAndPin wrapPinSlices
  rw [hinst]
  simp only [hfilter, hne, hsw, mapInsert, List.filter_nil, List.length_cons,
    List.length_nil, if_true, Bool.false_eq_true, if_false]

/-- An acquirer that does not end up sole pins nothing and only records
itself. -/
theorem acquire_not_sole (env : WrapEnv) (osCPUs : String) (slices : List String)
    (selfPid selfStart : Nat) (st0 : PinStateW) (w0 : World)
    (hlen : (mapInsert (pruneDead env st0.instances) selfPid selfStart).length ≠ 1) :
    acquireAndPin env osCPUs slices selfPid selfStart st0 w0
      = { ok := true,
          st := { st0 with
                  instances := mapInsert (pruneDead env st0.instances) selfPid selfStart },
          world := w0, pinAttempted := false } := by
  unfold acquireAndPin
  rw [if_neg hlen]

/-- Unfolding equation for `releaseAndRestore`. -/
theorem release_eq (env : WrapEnv) (p ts : Nat) (st0 : PinStateW) (w : World) :
    releaseAndRestore env p ts st0 w
      = if (releaseInstances env p ts st0.instances).isEmpty
            ∧ ¬st0.originalAllowedCPUs.isEmpty then
          ({ st0 with instances := releaseInstances env p ts st0.instances,
                      originalAllowedCPUs := [], osCPUs := "", slices := [] },
           wrapRestore env st0.originalAllowedCPUs st0.slices w)
        else ({ st0 with instances := releaseInstances env p ts st0.instances }, w) :=
  rfl

/-- C2 — Wrapper multi-instance refcount: an acquirer pins exactly when
pruning plus self-insertion leaves one instance; a release restores and
clears exactly when pruning plus self-removal leaves no instance (given
recorded originals); and for two wrappers A then B, the pin happens once
(on A), A's release leaves the slices pinned, and B's release restores the
pre-A snapshot and clears the coordinator fields. -/
theorem wrapper_refcount (env : WrapEnv) (os : String) (slices : List String)
    (aPid aTs bPid bTs : Nat) (st0 : PinStateW) (w0 : World)
    (haPid : aPid ≠ 0) (hbPid : bPid ≠ 0) (hab : aPid ≠ bPid)
    (hliveA : env.live aPid = some aTs) (hliveB : env.live bPid = some bTs)
    (hget : ∀ u, env.getFails u = false) (hset : ∀ u v, env.setFails u v = false)
    (hsl : slices ≠ []) (hinst0 : st0.instances = []) :
    (∀ (env2 : WrapEnv) (os2 : String) (sl2 : List String) (p ts : Nat)
        (st : PinStateW) (w : World),
      (acquireAndPin env2 os2 sl2 p ts st w).pinAttempted = true
        ↔ (mapInsert (pruneDead env2 st.instances) p ts).length = 1)
    ∧ (∀ (env2 : WrapEnv) (p ts : Nat) (st : PinStateW) (w : World),
        st.originalAllowedCPUs ≠ [] →
        (((releaseAndRestore env2 p ts st w).1).originalAllowedCPUs = []
          ↔ (releaseInstances env2 p ts st.instances).isEmpty = true))
    ∧ (let r1 := acquireAndPin env os slices aPid aTs st0 w0
       let r2 := acquireAndPin env os slices bPid bTs r1.st r1.world
       let r3 := releaseAndRestore env aPid aTs r2.st r2.world
       let r4 := releaseAndRestore env bPid bTs r3.1 r3.2
       r1.pinAttempted = true ∧ r1.ok = true
       ∧ (∀ u, u ∈ slices → r1.world u = os)
       ∧ r2.pinAttempted = false ∧ r2.ok = true
       ∧ (∀ u, r2.world u = r1.world u)
       ∧ (∀ u, u ∈ slices → r3.2 u = os)
       ∧ (∀ u, r4.2 u = w0 u)
       ∧ r4.1.originalAllowedCPUs = [] ∧ r4.1.osCPUs = ""
       ∧ r4.1.slices = [] ∧ r4.1.instances = []) := by
  refine ⟨?_, ?_, ?_⟩
  · intro env2 os2 sl2 p ts st w
    unfold acquireAndPin
    by_cases hl : (mapInsert (pruneDead env2 st.instances) p ts).length = 1
    · rw [if_pos hl]
      rcases wrapPinSlices env2 os2 sl2
        { st with instances := mapInsert (pruneDead env2 st.instances) p ts } w
        with ⟨okp, stp, wp⟩
      cases okp <;> simp [hl]
    · rw [if_neg hl]
      simp [hl]
  · intro env2 p ts st w horig
    rw [release_eq]
    have horig2 : st.originalAllowedCPUs.isEmpty = false := by
      cases h : st.originalAllowedCPUs with
      | nil => exact absurd h horig
      | cons a l => rfl
    by_cases hi : (releaseInstances env2 p ts st.instances).isEmpty
    · simp [hi, horig2]
    · simp [hi, horig]
  · have hr1 := acquire_sole env os slices aPid aTs st0 w0 (by rw [hinst0]; rfl)
      hget hset hsl
    have hw1 := (wrapSetLoop_ok env os hset slices w0).2
    have hprune1 : pruneDead env [(aPid, aTs)] = [(aPid, aTs)] :=
      pruneDead_all_live env _ (by
        intro p hp
        rcases List.mem_singleton.mp hp with rfl
        exact ⟨haPid, hliveA⟩)
    have hins2 : mapInsert [(aPid, aTs)] bPid bTs = [(bPid, bTs), (aPid, aTs)] := by
      simp [mapInsert, hab]
    have hcur : slices.map (fun u => (u, w0 u)) ≠ [] := by
      cases slices with
      | nil => exact absurd rfl hsl
      | cons s rest => simp
    have hcurE : (slices.map (fun u => (u, w0 u))).isEmpty = false := by
      cases h : slices.map (fun u => (u, w0 u)) with
      | nil => exact absurd h hcur
      | cons a l => rfl
    have hprune2 : pruneDead env [(bPid, bTs), (aPid, aTs)] = [(bPid, bTs), (aPid, aTs)] :=
      pruneDead_all_live env _ (by
        intro p hp
        rcases List.mem_cons.mp hp with rfl | hp2
        · exact ⟨hbPid, hliveB⟩
        · rcases List.mem_singleton.mp hp2 with rfl
          exact ⟨haPid, hliveA⟩)
    have hrelA : releaseInstances env aPid aTs [(bPid, bTs), (aPid, aTs)] = [(bPid, bTs)] := by
      have hlook : mapLookup [(bPid, bTs), (aPid, aTs)] aPid = some aTs := by
        simp [mapLookup, hab]
      unfold releaseInstances
      rw [hprune2]
      simp only [hlook]
      simp [mapErase, hab, Ne.symm hab]
    have hprune3 : pruneDead env [(bPid, bTs)] = [(bPid, bTs)] :=
      pruneDead_all_live env _ (by
        intro p hp
        rcases List.mem_singleton.mp hp with rfl
        exact ⟨hbPid, hliveB⟩)
    have hrelB : releaseInstances env bPid bTs [(bPid, bTs)] = [] := by
      have hlook : mapLookup [(bPid, bTs)] bPid = some bTs := by simp [mapLookup]
      unfold releaseInstances
      rw [hprune3]
      simp only [hlook]
      simp [mapErase]
    dsimp only
    rw [hr1]
    have hr2 := acquire_not_sole env os slices bPid bTs
      { version := st0.version, instances := [(aPid, aTs)],
        originalAllowedCPUs := slices.map (fun u => (u, w0 u)),
        osCPUs := os, slices := slices } ((wrapSetLoop env os slices w0).2)
      (by simp only [hprune1, hins2]; simp)
    rw [hr2]
    dsimp only
    rw [hprune1, hins2]
    rw [release_eq]
    dsimp only
    rw [hrelA]
    rw [if_neg (by simp)]
    rw [release_eq]
    dsimp only
    rw [hrelB]
    rw [if_pos (by simp [hcurE])]
    dsimp only
    refine ⟨rfl, rfl, fun u hu => ?_, rfl, rfl, fun u => rfl, fun u hu => ?_,
      fun u => ?_, rfl, rfl, rfl, rfl⟩
    · rw [hw1 u]; simp [hu]
    · rw [hw1 u]; simp [hu]
    · rw [wrapRestore_world env _ hset slices _ u]
      by_cases hu : u ∈ slices
      · rw [if_pos hu, mapLookup_map_world w0 slices u hu]
        rfl
      · rw [if_neg hu, hw1 u, if_neg hu]

/-- C2 witness: wrappers A (pid 100) and B (pid 200) on two slices starting
at `"0-15"` — A pins, B does not, A's release keeps the pin, B's release
restores the snapshot and clears the originals. -/
theorem wrapper_refcount_witness :
    (let envW : WrapEnv :=
      ⟨fun p => if p = 100 then some 5 else if p = 200 then some 7 else none,
       fun _ => false, fun _ _ => false⟩
     let r1 := acquireAndPin envW "0-7" ["app.slice", "background.slice"] 100 5
       ⟨1, [], [], "", []⟩ (fun _ => "0-15")
     let r2 := acquireAndPin envW "0-7" ["app.slice", "background.slice"] 200 7
       r1.st r1.world
     let r3 := releaseAndRestore envW 100 5 r2.st r2.world
     let r4 := releaseAndRestore envW 200 7 r3.1 r3.2
     r1.pinAttempted = true ∧ r2.pinAttempted = false
     ∧ r1.world "app.slice" = "0-7" ∧ r3.2 "app.slice" = "0-7"
     ∧ r4.2 "app.slice" = "0-15" ∧ r4.1.originalAllowedCPUs = []) := by
  have h := wrapper_refcount
    ⟨fun p => if p = 100 then some 5 else if p = 200 then some 7 else none,
     fun _ => false, fun _ _ => false⟩
    "0-7" ["app.slice", "background.slice"] 100 5 200 7 ⟨1, [], [], "", []⟩
    (fun _ => "0-15") (by decide) (by decide) (by decide) (by decide) (by decide)
    (fun _ => rfl) (fun _ _ => rfl) (by decide) rfl
  obtain ⟨_, _, hs⟩ := h
  obtain ⟨h1, h2, h3, h4, h5, h6, h7, h8, h9, h10, h11, h12⟩ := hs
  exact ⟨h1, h4, h3 _ (by decide), h7 _ (by decide), h8 _, h9⟩

/-- The pin helper never changes the instance map, whether it succeeds,
finds no readable slice, or fails a set and rolls back. -/
theorem wrapPinSlices_instances (env : WrapEnv) (osCPUs : String) (slices : List String)
    (st : PinStateW) (w : World) :
    ((wrapPinSlices env osCPUs slices st w).2.1).instances = st.instances := by
  simp only [wrapPinSlices]
  split
  · rfl
  · split <;> rfl

/-- C10 — Failed acquirer leaves no refcount residue: whenever the pin step
of a sole acquirer fails — for any cause: no readable slice, or a failed
set followed by the best-effort rollback — the persisted state no longer
contains the instance, a later acquirer becomes sole, and the wrapper
still runs the child command unpinned. -/
theorem failed_acquire_no_residue (env : WrapEnv) (os : String) (slices : List String)
    (selfPid selfStart : Nat) (st0 : PinStateW) (w0 : World)
    (hinst : pruneDead env st0.instances = [])
    (hpinfail : (wrapPinSlices env os slices
      { st0 with instances := [(selfPid, selfStart)] } w0).1 = false) :
    (acquireAndPin env os slices selfPid selfStart st0 w0).ok = false
    ∧ (acquireAndPin env os slices selfPid selfStart st0 w0).pinAttempted = true
    ∧ (acquireAndPin env os slices selfPid selfStart st0 w0).st.instances = []
    ∧ mapLookup (acquireAndPin env os slices selfPid selfStart st0 w0).st.instances
        selfPid = none
    ∧ (∀ p ts : Nat,
        (mapInsert (pruneDead env
          (acquireAndPin env os slices selfPid selfStart st0 w0).st.instances) p ts).length
          = 1)
    ∧ (∀ cmd : List String, cmd ≠ [] → wrapperMain false cmd false false = .ranChild false) := by
  have hpi := wrapPinSlices_instances env os slices
    { st0 with instances := [(selfPid, selfStart)] } w0
  rcases hps : wrapPinSlices env os slices
    { st0 with instances := [(selfPid, selfStart)] } w0 with ⟨okp, stp, wp⟩
  have hok : okp = false := by rw [hps] at hpinfail; exact hpinfail
  subst hok
  have hsti : stp.instances = [(selfPid, selfStart)] := by rw [hps] at hpi; exact hpi
  have hacq : acquireAndPin env os slices selfPid selfStart st0 w0
      = { ok := false, st := { stp with instances := mapErase stp.instances selfPid },
          world := wp, pinAttempted := true } := by
    simp only [acquireAndPin, hinst, mapInsert, List.filter_nil]
    rw [if_pos (by simp)]
    rw [hps]
  refine ⟨by rw [hacq], by rw [hacq], ?_, ?_, ?_, fun cmd hc => ?_⟩
  · rw [hacq]
    show mapErase stp.instances selfPid = []
    rw [hsti]
    simp [mapErase]
  · rw [hacq]
    show mapLookup (mapErase stp.instances selfPid) selfPid = none
    rw [hsti]
    simp [mapErase, mapLookup]
  · intro p ts
    rw [hacq]
    show (mapInsert (pruneDead env (mapErase stp.instances selfPid)) p ts).length = 1
    rw [hsti]
    simp [mapErase, pruneDead, mapInsert]
  · have hc2 : cmd.isEmpty = false := by
      cases cmd with
      | nil => exact absurd rfl hc
      | cons a l => rfl
    unfold wrapperMain
    simp [hc2]

/-- C10 witness: every set fails (gets succeed), so the pin loop fails and
rolls back; the failed acquirer is gone from the saved instances and the
child still runs. -/
theorem failed_acquire_no_residue_witness :
    (acquireAndPin ⟨fun _ => none, fun _ => false, fun _ _ => true⟩ "0-7" ["app.slice"]
      100 5 ⟨1, [], [], "", []⟩ (fun _ => "0-15")).ok = false
    ∧ (acquireAndPin ⟨fun _ => none, fun _ => false, fun _ _ => true⟩ "0-7" ["app.slice"]
      100 5 ⟨1, [], [], "", []⟩ (fun _ => "0-15")).st.instances = []
    ∧ wrapperMain false ["game.exe"] false false = .ranChild false :=
  ⟨(failed_acquire_no_residue ⟨fun _ => none, fun _ => false, fun _ _ => true⟩ "0-7"
      ["app.slice"] 100 5 ⟨1, [], [], "", []⟩ (fun _ => "0-15") rfl
      (by decide)).1,
   (failed_acquire_no_residue ⟨fun _ => none, fun _ => false, fun _ _ => true⟩ "0-7"
      ["app.slice"] 100 5 ⟨1, [], [], "", []⟩ (fun _ => "0-15") rfl
      (by decide)).2.2.1,
   (failed_acquire_no_residue ⟨fun _ => none, fun _ => false, fun _ _ => true⟩ "0-7"
      ["app.slice"] 100 5 ⟨1, [], [], "", []⟩ (fun _ => "0-15") rfl
      (by decide)).2.2.2.2.2 ["game.exe"] (by decide)⟩

/-!
Order-theoretic lemmas for the status comparator.
-/

/-- Characters with equal code points are equal. -/
theorem charToNat_inj {a b : Char} (h : a.toNat = b.toNat) : a = b :=
  Char.ext (UInt32.ext h)

/-- Lexicographic character order is irreflexive. -/
theorem charsLt_irrefl : ∀ a, charsLt a a = false
  | [] => rfl
  | c :: rest => by simp [charsLt, charsLt_irrefl rest]

/-- Lexicographic character order is transitive. -/
theorem charsLt_trans : ∀ a b c, charsLt a b = true → charsLt b c = true →
    charsLt a c = true
  | [], [], _ :: _, _, _ => rfl
  | [], _ :: _, _ :: _, _, _ => rfl
  | a :: as, b :: bs, c :: cs, h1, h2 => by
    by_cases hab : a = b
    · subst hab
      by_cases hbc : a = c
      · subst hbc
        simp only [charsLt, if_pos rfl] at h1 h2 ⊢
        exact charsLt_trans as bs cs h1 h2
      · simp only [charsLt, if_pos rfl] at h1
        simp only [charsLt, if_neg hbc] at h2 ⊢
        exact h2
    · by_cases hbc : b = c
      · subst hbc
        simp only [charsLt, if_neg hab] at h1 ⊢
        exact h1
      · simp only [charsLt, if_neg hab] at h1
        simp only [charsLt, if_neg hbc] at h2
        have h1' := of_decide_eq_true h1
        have h2' := of_decide_eq_true h2
        have hlt := Nat.lt_trans h1' h2'
        have hac : ¬a = c := fun he => by subst he; exact Nat.lt_irrefl _ hlt
        simp only [charsLt, if_neg hac]
        exact decide_eq_true_eq.mpr hlt

/-- Lexicographic character order is asymmetric. -/
theorem charsLt_asymm : ∀ a b, charsLt a b = true → charsLt b a = false
  | [], [] , h => by cases h
  | [], _ :: _, _ => rfl
  | _ :: _, [], h => by cases h
  | a :: as, b :: bs, h => by
    by_cases hab : a = b
    · subst hab
      simp only [charsLt, if_pos rfl] at h ⊢
      exact charsLt_asymm as bs h
    · simp only [charsLt, if_neg hab, if_neg (Ne.symm hab)] at h ⊢
      have := of_decide_eq_true h
      simpa using Nat.le_of_lt this

/-- Lexicographic character order is connex on distinct lists. -/
theorem charsLt_connex : ∀ a b, a ≠ b → charsLt a b = true ∨ charsLt b a = true
  | [], [], h => absurd rfl h
  | [], _ :: _, _ => Or.inl rfl
  | _ :: _, [], _ => Or.inr rfl
  | a :: as, b :: bs, h => by
    by_cases hab : a = b
    · subst hab
      have hne : as ≠ bs := by intro he; exact h (by rw [he])
      rcases charsLt_connex as bs hne with h1 | h1
      · exact Or.inl (by simp [charsLt, h1])
      · exact Or.inr (by simp [charsLt, h1])
    · have hnat : a.toNat ≠ b.toNat := fun he => hab (charToNat_inj he)
      rcases Nat.lt_or_ge a.toNat b.toNat with h1 | h1
      · exact Or.inl (by simp [charsLt, hab, h1])
      · have h2 : b.toNat < a.toNat := Nat.lt_of_le_of_ne h1 (Ne.symm hnat)
        exact Or.inr (by simp [charsLt, Ne.symm hab, h2])

/-- String order: irreflexive. -/
theorem strLt_irrefl (a : String) : strLt a a = false := charsLt_irrefl _

/-- String order: asymmetric. -/
theorem strLt_asymm {a b : String} (h : strLt a b = true) : strLt b a = false :=
  charsLt_asymm _ _ h

/-- String order: connex. -/
theorem strLt_connex {a b : String} (h : a ≠ b) :
    strLt a b = true ∨ strLt b a = true :=
  charsLt_connex _ _ (fun he => h (by
    have := congrArg String.mk he
    simpa using this))

/-- String order: transitive. -/
theorem strLt_trans {a b c : String} (h1 : strLt a b = true) (h2 : strLt b c = true) :
    strLt a c = true :=
  charsLt_trans _ _ _ h1 h2

/-- String order: negative transitivity helper. -/
theorem strLt_negtrans {x z : String} (y : String) (h : strLt x z = true) :
    strLt x y = true ∨ strLt y z = true := by
  by_cases h1 : x = y
  · exact Or.inr (h1 ▸ h)
  · rcases strLt_connex h1 with h2 | h2
    · exact Or.inl h2
    · exact Or.inr (strLt_trans h2 h)

/-- Propositional unfolding of the status comparator. -/
theorem summaryLess_eq (a b : ProgramSummary) : summaryLess a b = true ↔
    (a.cls ≠ b.cls ∧ strLt a.cls b.cls = true)
    ∨ (a.cls = b.cls ∧ a.count ≠ b.count ∧ b.count < a.count)
    ∨ (a.cls = b.cls ∧ a.count = b.count ∧ strLt a.exe b.exe = true) := by
  unfold summaryLess
  by_cases h1 : a.cls = b.cls
  · by_cases h2 : a.count = b.count <;> simp [h1, h2]
  · simp [h1]

/-- The status comparator is asymmetric. -/
theorem summaryLess_asymm (a b : ProgramSummary) (h : summaryLess a b = true) :
    summaryLess b a = false := by
  rw [summaryLess_eq] at h
  apply Bool.eq_false_iff.mpr
  intro hba
  rw [summaryLess_eq] at hba
  rcases h with ⟨h1, h2⟩ | ⟨h1, h2, h3⟩ | ⟨h1, h2, h3⟩ <;>
    rcases hba with ⟨g1, g2⟩ | ⟨g1, g2, g3⟩ | ⟨g1, g2, g3⟩
  · rw [strLt_asymm h2] at g2; cases g2
  · exact h1 g1.symm
  · exact h1 g1.symm
  · exact g1 h1.symm
  · omega
  · exact h2 g2.symm
  · exact g1 h1.symm
  · exact g2 h2.symm
  · rw [strLt_asymm h3] at g3; cases g3

/-- The status comparator is negatively transitive. -/
theorem summaryLess_negtrans (b : ProgramSummary) {c a : ProgramSummary}
    (h : summaryLess c a = true) :
    summaryLess c b = true ∨ summaryLess b a = true := by
  rw [summaryLess_eq] at h
  rw [summaryLess_eq, summaryLess_eq]
  rcases h with ⟨h1, h2⟩ | ⟨h1, h2, h3⟩ | ⟨h1, h2, h3⟩
  · by_cases hcb : c.cls = b.cls
    · refine Or.inr (Or.inl ⟨?_, ?_⟩)
      · rw [← hcb]; exact h1
      · rw [← hcb]; exact h2
    · rcases strLt_connex hcb with hs | hs
      · exact Or.inl (Or.inl ⟨hcb, hs⟩)
      · have hba : strLt b.cls a.cls = true := strLt_trans hs h2
        have hne : b.cls ≠ a.cls := fun he => by
          rw [he] at hba; rw [strLt_irrefl] at hba; cases hba
        exact Or.inr (Or.inl ⟨hne, hba⟩)
  · by_cases hcb : c.cls = b.cls
    · have hba : b.cls = a.cls := by rw [← hcb]; exact h1
      by_cases hclt : b.count < c.count
      · exact Or.inl (Or.inr (Or.inl ⟨hcb, by omega, hclt⟩))
      · exact Or.inr (Or.inr (Or.inl ⟨hba, by omega, by omega⟩))
    · rcases strLt_connex hcb with hs | hs
      · exact Or.inl (Or.inl ⟨hcb, hs⟩)
      · have hne : b.cls ≠ a.cls := fun he => hcb (by rw [h1, ← he])
        exact Or.inr (Or.inl ⟨hne, by rw [← h1]; exact hs⟩)
  · by_cases hcb : c.cls = b.cls
    · have hba : b.cls = a.cls := by rw [← hcb]; exact h1
      by_cases hcnt : b.count = c.count
      · rcases strLt_negtrans b.exe h3 with hx | hx
        · exact Or.inl (Or.inr (Or.inr ⟨hcb, by omega, hx⟩))
        · exact Or.inr (Or.inr (Or.inr ⟨hba, by omega, hx⟩))
      · by_cases hbl : b.count < c.count
        · exact Or.inl (Or.inr (Or.inl ⟨hcb, by omega, hbl⟩))
        · exact Or.inr (Or.inr (Or.inl ⟨hba, by omega, by omega⟩))
    · rcases strLt_connex hcb with hs | hs
      · exact Or.inl (Or.inl ⟨hcb, hs⟩)
      · have hne : b.cls ≠ a.cls := fun he => hcb (by rw [h1, ← he])
        exact Or.inr (Or.inl ⟨hne, by rw [← h1]; exact hs⟩)

/-- Membership in an ordered insertion. -/
theorem insertByLe_mem {α : Type} (le : α → α → Bool) (a x : α) :
    ∀ l, x ∈ insertByLe le a l ↔ x = a ∨ x ∈ l := by
  intro l
  induction l with
  | nil => simp [insertByLe]
  | cons b rest ih =>
    unfold insertByLe
    by_cases hb : le a b
    · simp [hb]
    · simp only [hb, Bool.false_eq_true, if_false, List.mem_cons, ih]
      tauto

/-- Ordered insertion preserves sortedness for a total transitive relation. -/
theorem insertByLe_pairwise {α : Type} (le : α → α → Bool)
    (htot : ∀ a b, le a b = true ∨ le b a = true)
    (htrans : ∀ a b c, le a b = true → le b c = true → le a c = true) (a : α) :
    ∀ l, List.Pairwise (fun x y => le x y = true) l →
      List.Pairwise (fun x y => le x y = true) (insertByLe le a l) := by
  intro l
  induction l with
  | nil => intro _; simp [insertByLe]
  | cons b rest ih =>
    intro hp
    rw [List.pairwise_cons] at hp
    obtain ⟨hb, hrest⟩ := hp
    unfold insertByLe
    by_cases hab : le a b
    · rw [if_pos hab]
      rw [List.pairwise_cons]
      constructor
      · intro x hx
        rcases List.mem_cons.mp hx with rfl | hx2
        · exact hab
        · exact htrans a b x hab (hb x hx2)
      · rw [List.pairwise_cons]
        exact ⟨hb, hrest⟩
    · rw [if_neg hab]
      rw [List.pairwise_cons]
      constructor
      · intro x hx
        rcases (insertByLe_mem le a x rest).mp hx with hxa | hx2
        · rw [hxa]
          rcases htot a b with h1 | h1
          · exact absurd h1 hab
          · exact h1
        · exact hb x hx2
      · exact ih hrest

/-- The insertion sort is sorted for a total transitive relation. -/
theorem sortByLe_pairwise {α : Type} (le : α → α → Bool)
    (htot : ∀ a b, le a b = true ∨ le b a = true)
    (htrans : ∀ a b c, le a b = true → le b c = true → le a c = true) :
    ∀ l, List.Pairwise (fun x y => le x y = true) (sortByLe le l) := by
  intro l
  induction l with
  | nil => simp [sortByLe]
  | cons x rest ih => exact insertByLe_pairwise le htot htrans x _ ih

/-- Ordered insertion is a permutation of consing. -/
theorem insertByLe_perm {α : Type} (le : α → α → Bool) (a : α) :
    ∀ l, (insertByLe le a l).Perm (a :: l) := by
  intro l
  induction l with
  | nil => exact List.Perm.refl _
  | cons b rest ih =>
    unfold insertByLe
    by_cases hb : le a b
    · rw [if_pos hb]
    · rw [if_neg hb]
      exact (List.Perm.cons b ih).trans (List.Perm.swap a b rest)

/-- The insertion sort permutes its input. -/
theorem sortByLe_perm {α : Type} (le : α → α → Bool) :
    ∀ l, (sortByLe le l).Perm l := by
  intro l
  induction l with
  | nil => exact List.Perm.refl _
  | cons x rest ih =>
    exact (insertByLe_perm le x (sortByLe le rest)).trans (List.Perm.cons x ih)

/-- Find the first group with the given executable and class. -/
def findGroup : List ProgramSummary → String → String → Option ProgramSummary
  | [], _, _ => none
  | g :: rest, e, c => if g.exe = e ∧ g.cls = c then some g else findGroup rest e c

/-- Whether a scanned process belongs to the `(exe, class)` group. -/
def keyMatch (osCPUs gameCPUs e c : String) (p : CPUConstraint) : Bool :=
  decide (p.exe = e) && decide (classOf osCPUs gameCPUs p.allowedCPUs = some c)

/-- The group the fold is specified to produce for a key: the matching
processes' count, the first one's allowed value, and the first 8 pids. -/
def groupSpec (osCPUs gameCPUs : String) (ps : List CPUConstraint) (e c : String) :
    Option ProgramSummary :=
  match ps.filter (keyMatch osCPUs gameCPUs e c) with
  | [] => none
  | p0 :: _ =>
    some ⟨e, c, p0.allowedCPUs, (ps.filter (keyMatch osCPUs gameCPUs e c)).length,
      ((ps.filter (keyMatch osCPUs gameCPUs e c)).map (fun p => p.pid)).take 8⟩

/-- Two groups with different keys. -/
def keyDiff (g h : ProgramSummary) : Prop := ¬(g.exe = h.exe ∧ g.cls = h.cls)

/-- A found group is a member and carries the searched key. -/
theorem findGroup_mem : ∀ gs e c g, findGroup gs e c = some g →
    g ∈ gs ∧ g.exe = e ∧ g.cls = c := by
  intro gs
  induction gs with
  | nil => intro e c g h; cases h
  | cons h0 rest ih =>
    intro e c g h
    unfold findGroup at h
    by_cases hk : h0.exe = e ∧ h0.cls = c
    · rw [if_pos hk] at h
      obtain rfl := Option.some.inj h
      exact ⟨List.mem_cons_self _ _, hk⟩
    · rw [if_neg hk] at h
      obtain ⟨h1, h2⟩ := ih e c g h
      exact ⟨List.mem_cons_of_mem _ h1, h2⟩

/-- Inserting a process does not disturb groups with other keys. -/
theorem findGroup_insert_other : ∀ gs (p : CPUConstraint) (c0 e c : String),
    ¬(e = p.exe ∧ c = c0) →
    findGroup (insertIntoGroup gs p c0) e c = findGroup gs e c := by
  intro gs
  induction gs with
  | nil =>
    intro p c0 e c hkey
    unfold insertIntoGroup findGroup
    rw [if_neg (fun hm => hkey ⟨hm.1.symm, hm.2.symm⟩)]
    rfl
  | cons g rest ih =>
    intro p c0 e c hkey
    unfold insertIntoGroup
    by_cases hit : g.exe = p.exe ∧ g.cls = c0
    · rw [if_pos hit]
      unfold findGroup
      have hg : ¬(g.exe = e ∧ g.cls = c) :=
        fun hm => hkey ⟨hm.1.symm.trans hit.1, hm.2.symm.trans hit.2⟩
      rw [if_neg (by simpa [updateGroup] using hg), if_neg hg]
    · rw [if_neg hit]
      unfold findGroup
      by_cases hg : g.exe = e ∧ g.cls = c
      · rw [if_pos hg, if_pos hg]
      · rw [if_neg hg, if_neg hg]
        exact ih p c0 e c hkey

/-- Inserting a process whose key is absent creates its fresh group. -/
theorem findGroup_insert_none : ∀ gs (p : CPUConstraint) (c : String),
    findGroup gs p.exe c = none →
    findGroup (insertIntoGroup gs p c) p.exe c
      = some ⟨p.exe, c, p.allowedCPUs, 1, [p.pid]⟩ := by
  intro gs
  induction gs with
  | nil => intro p c _; simp [insertIntoGroup, findGroup]
  | cons g rest ih =>
    intro p c h
    unfold findGroup at h
    by_cases hg : g.exe = p.exe ∧ g.cls = c
    · rw [if_pos hg] at h; cases h
    · rw [if_neg hg] at h
      unfold insertIntoGroup
      rw [if_neg hg]
      unfold findGroup
      rw [if_neg hg]
      exact ih p c h

/-- Inserting a process whose key is present updates the found group. -/
theorem findGroup_insert_some : ∀ gs (p : CPUConstraint) (c : String) g,
    findGroup gs p.exe c = some g →
    findGroup (insertIntoGroup gs p c) p.exe c = some (updateGroup g p) := by
  intro gs
  induction gs with
  | nil => intro p c g h; cases h
  | cons h0 rest ih =>
    intro p c g h
    unfold findGroup at h
    by_cases hg : h0.exe = p.exe ∧ h0.cls = c
    · rw [if_pos hg] at h
      obtain rfl := Option.some.inj h
      unfold insertIntoGroup
      rw [if_pos hg]
      unfold findGroup
      rw [if_pos (by simpa [updateGroup] using hg)]
    · rw [if_neg hg] at h
      unfold insertIntoGroup
      rw [if_neg hg]
      unfold findGroup
      rw [if_neg hg]
      exact ih p c g h

/-- Members of an insertion are old members, the fresh group, or an update
of an old member with the process's key. -/
theorem mem_insertIntoGroup : ∀ gs (p : CPUConstraint) (c : String) h,
    h ∈ insertIntoGroup gs p c →
      h ∈ gs ∨ h = ⟨p.exe, c, p.allowedCPUs, 1, [p.pid]⟩
      ∨ ∃ g, g ∈ gs ∧ g.exe = p.exe ∧ g.cls = c ∧ h = updateGroup g p := by
  intro gs
  induction gs with
  | nil =>
    intro p c h hm
    unfold insertIntoGroup at hm
    rcases List.mem_singleton.mp hm with rfl
    exact Or.inr (Or.inl rfl)
  | cons g rest ih =>
    intro p c h hm
    unfold insertIntoGroup at hm
    by_cases hit : g.exe = p.exe ∧ g.cls = c
    · rw [if_pos hit] at hm
      rcases List.mem_cons.mp hm with rfl | hm2
      · exact Or.inr (Or.inr ⟨g, List.mem_cons_self _ _, hit.1, hit.2, rfl⟩)
      · exact Or.inl (List.mem_cons_of_mem _ hm2)
    · rw [if_neg hit] at hm
      rcases List.mem_cons.mp hm with rfl | hm2
      · exact Or.inl (List.mem_cons_self _ _)
      · rcases ih p c h hm2 with h1 | h1 | ⟨g2, hg2, he, hc, hu⟩
        · exact Or.inl (List.mem_cons_of_mem _ h1)
        · exact Or.inr (Or.inl h1)
        · exact Or.inr (Or.inr ⟨g2, List.mem_cons_of_mem _ hg2, he, hc, hu⟩)

/-- Insertion preserves key-distinctness of the group list. -/
theorem insertIntoGroup_uniq : ∀ gs (p : CPUConstraint) (c : String),
    List.Pairwise keyDiff gs → List.Pairwise keyDiff (insertIntoGroup gs p c) := by
  intro gs
  induction gs with
  | nil => intro p c _; simp [insertIntoGroup, keyDiff]
  | cons g rest ih =>
    intro p c hp
    rw [List.pairwise_cons] at hp
    obtain ⟨hg, hrest⟩ := hp
    unfold insertIntoGroup
    by_cases hit : g.exe = p.exe ∧ g.cls = c
    · rw [if_pos hit]
      rw [List.pairwise_cons]
      refine ⟨fun h hm => ?_, hrest⟩
      have := hg h hm
      simpa [keyDiff, updateGroup] using this
    · rw [if_neg hit]
      rw [List.pairwise_cons]
      refine ⟨fun h hm => ?_, ih p c hrest⟩
      rcases mem_insertIntoGroup rest p c h hm with h1 | h1 | ⟨g2, hg2, he, hc, hu⟩
      · exact hg h h1
      · subst h1
        exact fun hm2 => hit ⟨hm2.1, hm2.2⟩
      · subst hu
        have := hg g2 hg2
        simpa [keyDiff, updateGroup] using this

/-- Under key-distinctness, every member is found under its own key. -/
theorem mem_findGroup : ∀ gs, List.Pairwise keyDiff gs →
    ∀ g, g ∈ gs → findGroup gs g.exe g.cls = some g := by
  intro gs
  induction gs with
  | nil => intro _ g hm; cases hm
  | cons h0 rest ih =>
    intro hp g hm
    rw [List.pairwise_cons] at hp
    obtain ⟨hh, hrest⟩ := hp
    unfold findGroup
    rcases List.mem_cons.mp hm with rfl | hm2
    · rw [if_pos ⟨rfl, rfl⟩]
    · have hk : ¬(h0.exe = g.exe ∧ h0.cls = g.cls) := hh g hm2
      rw [if_neg hk]
      exact ih hrest g hm2

/-- Appending one element to a capped sample keeps the cap semantics. -/
theorem take8_append (ys : List Nat) (x : Nat) :
    (if (List.take 8 ys).length < 8 then List.take 8 ys ++ [x] else List.take 8 ys)
      = List.take 8 (ys ++ [x]) := by
  rw [List.length_take]
  by_cases h : ys.length < 8
  · rw [if_pos (by omega)]
    rw [List.take_of_length_le (Nat.le_of_lt h)]
    rw [List.take_of_length_le (by simp; omega)]
  · rw [if_neg (by omega)]
    rw [List.take_append_eq_append_take]
    have h0 : 8 - ys.length = 0 := by omega
    rw [h0]
    simp

/-- A nonexistent group means no process matched. -/
theorem groupSpec_none (osCPUs gameCPUs : String) (ps : List CPUConstraint)
    (e c : String) (h : groupSpec osCPUs gameCPUs ps e c = none) :
    ps.filter (keyMatch osCPUs gameCPUs e c) = [] := by
  unfold groupSpec at h
  rcases hms : ps.filter (keyMatch osCPUs gameCPUs e c) with _ | ⟨p0, tl⟩
  · rfl
  · rw [hms] at h; cases h

/-- Inversion of a produced group: its fields are the specified count, first
allowed value, and first 8 pids. -/
theorem groupSpec_some (osCPUs gameCPUs : String) (ps : List CPUConstraint)
    (e c : String) (s : ProgramSummary)
    (h : groupSpec osCPUs gameCPUs ps e c = some s) :
    ps.filter (keyMatch osCPUs gameCPUs e c) ≠ []
    ∧ s.exe = e ∧ s.cls = c
    ∧ s.count = (ps.filter (keyMatch osCPUs gameCPUs e c)).length
    ∧ s.samplePIDs
        = ((ps.filter (keyMatch osCPUs gameCPUs e c)).map (fun p => p.pid)).take 8 := by
  unfold groupSpec at h
  rcases hms : ps.filter (keyMatch osCPUs gameCPUs e c) with _ | ⟨p0, tl⟩
  · rw [hms] at h; cases h
  · rw [hms] at h
    obtain rfl := Option.some.inj h
    refine ⟨by simp [hms], rfl, rfl, rfl, rfl⟩

/-- `groupSpec` only depends on the filtered matches. -/
theorem groupSpec_congr (osCPUs gameCPUs : String) (ps ps2 : List CPUConstraint)
    (e c : String)
    (h : ps.filter (keyMatch osCPUs gameCPUs e c) = ps2.filter (keyMatch osCPUs gameCPUs e c)) :
    groupSpec osCPUs gameCPUs ps e c = groupSpec osCPUs gameCPUs ps2 e c := by
  unfold groupSpec
  rw [h]

/-- `groupSpec` on a non-empty match list. -/
theorem groupSpec_cons (osCPUs gameCPUs : String) (ps : List CPUConstraint)
    (e c : String) (p0 : CPUConstraint) (tl : List CPUConstraint)
    (hms : ps.filter (keyMatch osCPUs gameCPUs e c) = p0 :: tl) :
    groupSpec osCPUs gameCPUs ps e c
      = some ⟨e, c, p0.allowedCPUs, (p0 :: tl).length,
          ((p0 :: tl).map (fun q => q.pid)).take 8⟩ := by
  unfold groupSpec
  rw [hms]

/-- One fold step preserves the per-key characterization of the groups. -/
theorem addToGroups_inv (osCPUs gameCPUs : String) (ps : List CPUConstraint)
    (gs : List ProgramSummary) (p : CPUConstraint)
    (hInv : ∀ e c, findGroup gs e c = groupSpec osCPUs gameCPUs ps e c) :
    ∀ e c, findGroup (addToGroups osCPUs gameCPUs gs p) e c
      = groupSpec osCPUs gameCPUs (ps ++ [p]) e c := by
  intro e c
  unfold addToGroups
  cases hcl : classOf osCPUs gameCPUs p.allowedCPUs with
  | none =>
    have hkm : keyMatch osCPUs gameCPUs e c p = false := by simp [keyMatch, hcl]
    rw [hInv e c]
    exact groupSpec_congr _ _ _ _ _ _ (by rw [List.filter_append]; simp [hkm])
  | some c0 =>
    by_cases hkey : e = p.exe ∧ c = c0
    · obtain ⟨rfl, rfl⟩ := hkey
      have hkm : keyMatch osCPUs gameCPUs p.exe c p = true := by simp [keyMatch, hcl]
      cases hfg : findGroup gs p.exe c with
      | none =>
        have hspec := hInv p.exe c
        rw [hfg] at hspec
        have hempty : ps.filter (keyMatch osCPUs gameCPUs p.exe c) = [] :=
          groupSpec_none _ _ _ _ _ hspec.symm
        rw [findGroup_insert_none gs p c hfg]
        have hms2 : (ps ++ [p]).filter (keyMatch osCPUs gameCPUs p.exe c) = [p] := by
          rw [List.filter_append, hempty]
          simp [hkm]
        rw [groupSpec_cons _ _ _ _ _ _ _ hms2]
        simp
      | some g =>
        rcases hms : ps.filter (keyMatch osCPUs gameCPUs p.exe c) with _ | ⟨p0, tl⟩
        · have hcon := hInv p.exe c
          rw [hfg] at hcon
          unfold groupSpec at hcon
          rw [hms] at hcon
          cases hcon
        · have hg : g = ⟨p.exe, c, p0.allowedCPUs, (p0 :: tl).length,
              ((p0 :: tl).map (fun q => q.pid)).take 8⟩ := by
            have h1 := hInv p.exe c
            rw [hfg, groupSpec_cons _ _ _ _ _ _ _ hms] at h1
            exact Option.some.inj h1
          rw [findGroup_insert_some gs p c g hfg]
          have hms2 : (ps ++ [p]).filter (keyMatch osCPUs gameCPUs p.exe c)
              = p0 :: (tl ++ [p]) := by
            rw [List.filter_append, hms]
            simp [hkm]
          rw [groupSpec_cons _ _ _ _ _ _ _ hms2]
          subst hg
          unfold updateGroup
          simp only [Option.some.injEq, ProgramSummary.mk.injEq]
          refine ⟨trivial, trivial, trivial, by simp, ?_⟩
          rw [take8_append]
          simp
    · have hkm : keyMatch osCPUs gameCPUs e c p = false := by
        by_cases he : p.exe = e
        · by_cases hc2 : c0 = c
          · exact absurd ⟨he.symm, hc2.symm⟩ hkey
          · simp [keyMatch, hcl, hc2]
        · simp [keyMatch, he]
      rw [findGroup_insert_other gs p c0 e c hkey]
      rw [hInv e c]
      exact groupSpec_congr _ _ _ _ _ _ (by rw [List.filter_append]; simp [hkm])

/-- The group fold satisfies the per-key characterization and keeps keys
distinct. -/
theorem groupFold_inv (osCPUs gameCPUs : String) :
    ∀ (l ps : List CPUConstraint) (gs : List ProgramSummary),
      (∀ e c, findGroup gs e c = groupSpec osCPUs gameCPUs ps e c) →
      List.Pairwise keyDiff gs →
      (∀ e c, findGroup (l.foldl (addToGroups osCPUs gameCPUs) gs) e c
        = groupSpec osCPUs gameCPUs (ps ++ l) e c)
      ∧ List.Pairwise keyDiff (l.foldl (addToGroups osCPUs gameCPUs) gs) := by
  intro l
  induction l with
  | nil =>
    intro ps gs hInv hU
    constructor
    · intro e c
      rw [List.append_nil]
      exact hInv e c
    · exact hU
  | cons p rest ih =>
    intro ps gs hInv hU
    have h2 : List.Pairwise keyDiff (addToGroups osCPUs gameCPUs gs p) := by
      unfold addToGroups
      cases classOf osCPUs gameCPUs p.allowedCPUs
      · exact hU
      · exact insertIntoGroup_uniq gs p _ hU
    have hrec := ih (ps ++ [p]) (addToGroups osCPUs gameCPUs gs p)
      (addToGroups_inv osCPUs gameCPUs ps gs p hInv) h2
    constructor
    · intro e c
      rw [List.foldl_cons, List.append_cons]
      exact hrec.1 e c
    · rw [List.foldl_cons]
      exact hrec.2

/-- The claimed ordering between adjacent summary rows: class strictly
before, or same class and strictly more occurrences, or same class and
count and executable not after. -/
def summaryOrdered (a b : ProgramSummary) : Prop :=
  (a.cls ≠ b.cls ∧ strLt a.cls b.cls = true)
  ∨ (a.cls = b.cls ∧ (b.count < a.count
      ∨ (a.count = b.count ∧ strLt b.exe a.exe = false)))

/-- The claimed ordering is exactly "not strictly after" for the source
comparator. -/
theorem summaryOrdered_iff (a b : ProgramSummary) :
    summaryOrdered a b ↔ summaryLess b a = false := by
  constructor
  · intro h
    apply Bool.eq_false_iff.mpr
    intro hlt
    rw [summaryLess_eq] at hlt
    rcases h with ⟨h1, h2⟩ | ⟨h1, h2 | ⟨h2, h3⟩⟩ <;>
      rcases hlt with ⟨g1, g2⟩ | ⟨g1, g2, g3⟩ | ⟨g1, g2, g3⟩
    · rw [strLt_asymm h2] at g2; cases g2
    · exact h1 g1.symm
    · exact h1 g1.symm
    · exact g1 h1.symm
    · omega
    · omega
    · exact g1 h1.symm
    · omega
    · rw [g3] at h3; cases h3
  · intro h
    by_cases h1 : a.cls = b.cls
    · by_cases h2 : a.count = b.count
      · refine Or.inr ⟨h1, Or.inr ⟨h2, ?_⟩⟩
        unfold summaryLess at h
        rw [if_neg (fun hne => hne h1.symm), if_neg (fun hne => hne h2.symm)] at h
        exact h
      · refine Or.inr ⟨h1, Or.inl ?_⟩
        unfold summaryLess at h
        rw [if_neg (fun hne => hne h1.symm), if_pos (fun he => h2 he.symm)] at h
        simp only [decide_eq_false_iff_not] at h
        omega
    · refine Or.inl ⟨h1, ?_⟩
      unfold summaryLess at h
      rw [if_pos (fun he => h1 he.symm)] at h
      rcases strLt_connex h1 with hs | hs
      · exact hs
      · rw [hs] at h; cases h

/-- C8 — Status "all" mode grouping and ordering: the summary classifies a
process exactly when its mask equals `os_cpus` or `game_cpus`; every row
keeps at most 8 sample pids and counts exactly the scanned processes with
its executable and class; a row for `(exe, class)` exists exactly when some
scanned process matches it; and rows are ordered by class ascending, then
count descending, then executable ascending. -/
theorem status_all_grouping (uid : Nat) (osCPUs gameCPUs : String)
    (entries : List ProcEntry) (hos : osCPUs ≠ "") (hgame : gameCPUs ≠ "") :
    (∀ al, (classOf osCPUs gameCPUs al).isSome ↔ (al = osCPUs ∨ al = gameCPUs))
    ∧ (∀ s, s ∈ statusAll uid osCPUs gameCPUs entries → s.samplePIDs.length ≤ 8)
    ∧ (∀ s, s ∈ statusAll uid osCPUs gameCPUs entries →
        s.count = ((scanUserCPUConstraints uid entries).filter
          (keyMatch osCPUs gameCPUs s.exe s.cls)).length)
    ∧ (∀ e c, (∃ s, s ∈ statusAll uid osCPUs gameCPUs entries ∧ s.exe = e ∧ s.cls = c)
        ↔ ∃ p, p ∈ scanUserCPUConstraints uid entries ∧ p.exe = e
            ∧ classOf osCPUs gameCPUs p.allowedCPUs = some c)
    ∧ List.Pairwise summaryOrdered (statusAll uid osCPUs gameCPUs entries) := by
  have hfold := groupFold_inv osCPUs gameCPUs (scanUserCPUConstraints uid entries) [] []
    (fun e c => rfl) List.Pairwise.nil
  rw [List.nil_append] at hfold
  obtain ⟨hInv, hU⟩ := hfold
  have hperm : (statusAll uid osCPUs gameCPUs entries).Perm
      ((scanUserCPUConstraints uid entries).foldl (addToGroups osCPUs gameCPUs) []) :=
    sortByLe_perm _ _
  have hletot : ∀ a b : ProgramSummary,
      (!summaryLess b a) = true ∨ (!summaryLess a b) = true := by
    intro a b
    by_cases h : summaryLess b a = true
    · right
      rw [summaryLess_asymm _ _ h]
      rfl
    · left
      cases hx : summaryLess b a with
      | true => exact absurd hx h
      | false => rfl
  have hletrans : ∀ a b c : ProgramSummary, (!summaryLess b a) = true →
      (!summaryLess c b) = true → (!summaryLess c a) = true := by
    intro a b c h1 h2
    cases hx : summaryLess c a with
    | false => rfl
    | true =>
      rcases summaryLess_negtrans b hx with h4 | h4
      · rw [h4] at h2; cases h2
      · rw [h4] at h1; cases h1
  have hsorted := sortByLe_pairwise (fun a b => !summaryLess b a) hletot hletrans
    ((scanUserCPUConstraints uid entries).foldl (addToGroups osCPUs gameCPUs) [])
  refine ⟨?_, ?_, ?_, ?_, ?_⟩
  · intro al
    unfold classOf
    by_cases h1 : al = osCPUs
    · rw [if_pos ⟨hos, h1⟩]
      simp [h1]
    · by_cases h2 : al = gameCPUs
      · rw [if_neg (fun hx => h1 hx.2), if_pos ⟨hgame, h2⟩]
        simp [h2]
      · rw [if_neg (fun hx => h1 hx.2), if_neg (fun hx => h2 hx.2)]
        simp [h1, h2]
  · intro s hs
    have hs2 := hperm.mem_iff.mp hs
    have hfind := mem_findGroup _ hU s hs2
    rw [hInv s.exe s.cls] at hfind
    obtain ⟨_, _, _, _, hsample⟩ := groupSpec_some _ _ _ _ _ _ hfind
    rw [hsample]
    exact List.length_take_le _ _
  · intro s hs
    have hs2 := hperm.mem_iff.mp hs
    have hfind := mem_findGroup _ hU s hs2
    rw [hInv s.exe s.cls] at hfind
    obtain ⟨_, _, _, hcount, _⟩ := groupSpec_some _ _ _ _ _ _ hfind
    exact hcount
  · intro e c
    constructor
    · rintro ⟨s, hs, he, hc⟩
      have hs2 := hperm.mem_iff.mp hs
      have hfind := mem_findGroup _ hU s hs2
      rw [hInv s.exe s.cls] at hfind
      obtain ⟨hne, _, _, _, _⟩ := groupSpec_some _ _ _ _ _ _ hfind
      rcases hflt : (scanUserCPUConstraints uid entries).filter
          (keyMatch osCPUs gameCPUs s.exe s.cls) with _ | ⟨p0, tl⟩
      · exact absurd hflt hne
      · have hp0 : p0 ∈ (scanUserCPUConstraints uid entries).filter
            (keyMatch osCPUs gameCPUs s.exe s.cls) := by
          rw [hflt]; exact List.mem_cons_self _ _
        obtain ⟨hmem, hkm⟩ := List.mem_filter.mp hp0
        unfold keyMatch at hkm
        rw [Bool.and_eq_true, decide_eq_true_eq, decide_eq_true_eq] at hkm
        exact ⟨p0, hmem, he ▸ hkm.1, hc ▸ hkm.2⟩
    · rintro ⟨p, hp, he, hc⟩
      have hkm : keyMatch osCPUs gameCPUs e c p = true := by
        unfold keyMatch
        rw [Bool.and_eq_true, decide_eq_true_eq, decide_eq_true_eq]
        exact ⟨he, hc⟩
      have hpf : p ∈ (scanUserCPUConstraints uid entries).filter
          (keyMatch osCPUs gameCPUs e c) := List.mem_filter.mpr ⟨hp, hkm⟩
      rcases hflt : (scanUserCPUConstraints uid entries).filter
          (keyMatch osCPUs gameCPUs e c) with _ | ⟨p0, tl⟩
      · rw [hflt] at hpf; cases hpf
      · have hfind : findGroup ((scanUserCPUConstraints uid entries).foldl
            (addToGroups osCPUs gameCPUs) []) e c
            = some ⟨e, c, p0.allowedCPUs, (p0 :: tl).length,
                ((p0 :: tl).map (fun q => q.pid)).take 8⟩ := by
          rw [hInv e c]
          exact groupSpec_cons _ _ _ _ _ _ _ hflt
        obtain ⟨hmem, hex, hcl⟩ := findGroup_mem _ _ _ _ hfind
        exact ⟨_, hperm.mem_iff.mpr hmem, hex, hcl⟩
  · exact hsorted.imp (fun h => (summaryOrdered_iff _ _).mpr (by
      cases hx : summaryLess _ _ with
      | false => rfl
      | true => rw [hx] at h; cases h))

/-- A small process table for the status witness: three processes of uid
1000 (two pinned to the game mask, one to the OS mask) and one foreign-uid
process. -/
def statusEntriesW : List ProcEntry :=
  [⟨101, ["Uid:\t1000\t1000", "Cpus_allowed_list:\t8-15"], "game1"⟩,
   ⟨102, ["Uid:\t1000\t1000", "Cpus_allowed_list:\t0-7"], "firefox"⟩,
   ⟨103, ["Uid:\t1000\t1000", "Cpus_allowed_list:\t8-15"], "game1"⟩,
   ⟨104, ["Uid:\t2000\t2000", "Cpus_allowed_list:\t8-15"], "other"⟩]

/-- C8 witness: on the concrete table the `game1` row counts its two
processes, keeps both sample pids, and its row is present. -/
theorem status_all_grouping_witness :
    (("0-7" : String) ≠ "" ∧ ("8-15" : String) ≠ "")
    ∧ (⟨"game1", "game", "8-15", 2, [101, 103]⟩ : ProgramSummary).count
      = ((scanUserCPUConstraints 1000 statusEntriesW).filter
          (keyMatch "0-7" "8-15"
            (⟨"game1", "game", "8-15", 2, [101, 103]⟩ : ProgramSummary).exe
            (⟨"game1", "game", "8-15", 2, [101, 103]⟩ : ProgramSummary).cls)).length
    ∧ (⟨"game1", "game", "8-15", 2, [101, 103]⟩ : ProgramSummary).samplePIDs.length ≤ 8 :=
  ⟨⟨by decide, by decide⟩,
   (status_all_grouping 1000 "0-7" "8-15" statusEntriesW (by decide) (by decide)).2.2.1
     ⟨"game1", "game", "8-15", 2, [101, 103]⟩ (by decide),
   (status_all_grouping 1000 "0-7" "8-15" statusEntriesW (by decide) (by decide)).2.1
     ⟨"game1", "game", "8-15", 2, [101, 103]⟩ (by decide)⟩
